import Mathlib

/-!
Verification development for the `stats` package of DylanJ/ircstats.

The Go sources are shallowly embedded: Go `map` values become association
lists with unique keys, pointer-linked entities become id-keyed tables with
explicit state passing, `uint` counters become `Nat` (message volumes stay far
below any wrap-around, so no modular arithmetic is modelled), and fallible
operations return `Option`/`Except`.  Structures whose defining file is not
part of the provided sources (the entity structs, `MsgKind`, the token-counter
constructors) are modelled from the specification and marked as such in their
doc comments.
-/

namespace IrcStats

/-! ### Association lists modelling Go maps

`setA` overwrites in place (Go map assignment), `updateA` mutates the value
stored under a key (Go mutation through a pointer held in a map), `lookupA`
is Go map read returning `none` for a missing key (a `nil` pointer). -/

def lookupA {α β : Type} [DecidableEq α] : List (α × β) → α → Option β
  | [], _ => none
  | (k, v) :: rest, a => if k = a then some v else lookupA rest a

def setA {α β : Type} [DecidableEq α] : List (α × β) → α → β → List (α × β)
  | [], a, b => [(a, b)]
  | (k, v) :: rest, a, b => if k = a then (a, b) :: rest else (k, v) :: setA rest a b

def updateA {α β : Type} [DecidableEq α] : List (α × β) → α → (β → β) → List (α × β)
  | [], _, _ => []
  | (k, v) :: rest, a, f => if k = a then (k, f v) :: rest else (k, v) :: updateA rest a f

def keysA {α β : Type} (l : List (α × β)) : List α := l.map Prod.fst

/-- Lowercase mapping of a single character, as Go `strings.ToLower` acts on
the ASCII range (the only range exercised by this package's keys). -/
def lcChar (c : Char) : Char :=
  if 65 ≤ c.toNat ∧ c.toNat ≤ 90 then Char.ofNat (c.toNat + 32) else c

/-- Models Go `strings.ToLower` (ASCII behaviour). -/
def lowerStr (s : String) : String := ⟨s.data.map lcChar⟩

/-! Core string primitives are re-implemented structurally over `List Char`
(the library versions recurse over byte positions, which the kernel cannot
evaluate); each mirrors the Go function named in its doc comment. -/

/-- `strings.HasPrefix s pre` on character lists (`pre` first). -/
def startsWithL : List Char → List Char → Bool
  | [], _ => true
  | _ :: _, [] => false
  | p :: ps, c :: cs => p = c && startsWithL ps cs

def startsWithS (s pre : String) : Bool := startsWithL pre.data s.data

/-- `strings.HasSuffix s suf` on character lists (`suf` first). -/
def endsWithS (s suf : String) : Bool := startsWithL suf.data.reverse s.data.reverse

/-- `strings.Split(s, " ")`: pieces between single-space separators, empty
pieces included. -/
def splitSpAux : List Char → List Char → List (List Char)
  | [], cur => [cur.reverse]
  | c :: rest, cur =>
    if c = ' ' then cur.reverse :: splitSpAux rest [] else splitSpAux rest (c :: cur)

def splitOnSpace (s : String) : List String := (splitSpAux s.data []).map fun l => ⟨l⟩

/-- `strings.Fields`: maximal runs of non-whitespace characters. -/
def fieldsAux : List Char → List Char → List (List Char)
  | [], cur => if cur = [] then [] else [cur.reverse]
  | c :: rest, cur =>
    if c.isWhitespace then
      (if cur = [] then fieldsAux rest [] else cur.reverse :: fieldsAux rest [])
    else fieldsAux rest (c :: cur)

/-- UTF-8 byte length of a character list (Go `len` of a string). -/
def utf8Len (cs : List Char) : Nat := cs.foldl (fun n c => n + c.utf8Size) 0

/-! ### The URL token tracker (`urls.go`)

`urlRegex` is `^(http|https):\/\/|[a-z0-9]+([\-\.]{1}[a-z0-9]+)*\.[a-z]{2,6}(:[0-9]{1,5})?(\/.*)?$`.
The first alternative is anchored only at the start of the word, so it means
"the word starts with `http://` or `https://`".  The second alternative is
anchored only at the end, so `FindStringSubmatch` succeeds on it exactly when
some suffix of the word matches the bare-domain pattern in full.  The
bare-domain pattern is embedded with a small backtracking matcher. -/

/-- A matcher consumes a prefix of the character list and returns every
possible remainder. -/
def Matcher : Type := List Char → List (List Char)

def mEps : Matcher := fun cs => [cs]

def mChar (p : Char → Bool) : Matcher := fun cs =>
  match cs with
  | [] => []
  | c :: rest => if p c then [rest] else []

def mSeq (m1 m2 : Matcher) : Matcher := fun cs => (m1 cs).flatMap m2

def mAlt (m1 m2 : Matcher) : Matcher := fun cs => m1 cs ++ m2 cs

def mOpt (m : Matcher) : Matcher := mAlt mEps m

/-- At most `fuel` repetitions; adequate whenever `m` consumes at least one
character and `fuel` is the input length. -/
def mStar (m : Matcher) : Nat → Matcher
  | 0 => mEps
  | n + 1 => mAlt mEps (mSeq m (mStar m n))

/-- One or more repetitions (with fuel for the tail). -/
def mPlus (m : Matcher) (fuel : Nat) : Matcher := mSeq m (mStar m fuel)

/-- Between 0 and `n` repetitions. -/
def mUpto (m : Matcher) : Nat → Matcher
  | 0 => mEps
  | n + 1 => mAlt mEps (mSeq m (mUpto m n))

def isLowerAN (c : Char) : Bool := ('a' ≤ c && c ≤ 'z') || ('0' ≤ c && c ≤ '9')

def isLowerAZ (c : Char) : Bool := 'a' ≤ c && c ≤ 'z'

def isDigitCh (c : Char) : Bool := '0' ≤ c && c ≤ '9'

def isDashDot (c : Char) : Bool := c = '-' || c = '.'

/-- `[a-z0-9]+([\-\.]{1}[a-z0-9]+)*\.[a-z]{2,6}(:[0-9]{1,5})?(\/.*)?` ---
Go `.` does not match a newline, hence the `≠ '\n'` class in the path part. -/
def bareMatcher (fuel : Nat) : Matcher :=
  mSeq (mPlus (mChar isLowerAN) fuel)
    (mSeq (mStar (mSeq (mChar isDashDot) (mPlus (mChar isLowerAN) fuel)) fuel)
      (mSeq (mChar (fun c => c = '.'))
        (mSeq (mSeq (mChar isLowerAZ) (mSeq (mChar isLowerAZ) (mUpto (mChar isLowerAZ) 4)))
          (mSeq (mOpt (mSeq (mChar (fun c => c = ':')) (mSeq (mChar isDigitCh) (mUpto (mChar isDigitCh) 4))))
            (mOpt (mSeq (mChar (fun c => c = '/')) (mStar (mChar (fun c => c ≠ '\n')) fuel)))))))

/-- The bare-domain alternative matches the whole character list. -/
def bareFullMatch (cs : List Char) : Bool := (bareMatcher cs.length cs).any List.isEmpty

/-- `urlRegex.FindStringSubmatch(w) != nil`: either the start-anchored
`^(http|https)://` alternative matches a prefix of `w`, or the end-anchored
bare-domain alternative matches some suffix of `w` in full. -/
def urlWordMatch (w : String) : Bool :=
  startsWithS w "http://" || startsWithS w "https://" || w.data.tails.any bareFullMatch

/-- `u[w]++` on a Go map: a missing key reads as zero. -/
def bump (u : List (String × Nat)) (w : String) : List (String × Nat) :=
  setA u w ((lookupA u w).getD 0 + 1)

/-- `NewURLs` returns an empty map (source `urls.go`). -/
def NewURLs : List (String × Nat) := []

structure TopURL where
  URL : String
  Count : Nat
deriving DecidableEq

/-- Message kinds.  Modelled from the spec: the `MsgKind` declaration is not
among the provided sources; the source switches on `Kick` and `Action` and the
spec lists {Message, Action, Notice, Join, Part, Quit, Kick}. -/
inductive MsgKind where
  | Privmsg
  | Action
  | Notice
  | Join
  | Quit
  | Kick
deriving DecidableEq

/-- The `Message` record, fields as constructed in `Stats.addMessage`
(`time.Time` is modelled as a `Nat` timestamp). -/
structure Message where
  ID : Nat
  Date : Nat
  UserID : Nat
  ChannelID : Nat
  Message : String
  Kind : MsgKind
deriving DecidableEq

/-- `urls.addMessage`: split the text on single spaces (`strings.Split`),
increment the entry of every word the regex accepts. -/
def urlsAddMessage (u : List (String × Nat)) (m : Message) : List (String × Nat) :=
  (splitOnSpace m.Message).foldl (fun acc w => if urlWordMatch w then bump acc w else acc) u

/-- Descending insertion by count: an element goes in front of `b` exactly
when `sort.Sort`'s `Less` (`a.Count > b.Count`) holds. -/
def insertByCount (a : TopURL) : List TopURL → List TopURL
  | [] => [a]
  | b :: bs => if b.Count < a.Count then a :: b :: bs else b :: insertByCount a bs

/-- `sort.Sort(byCount(list))`: some permutation ordered by descending count
(the model fixes insertion sort; Go's sort is unstable so its tie order is
unspecified). -/
def sortByCount (l : List TopURL) : List TopURL := l.foldr insertByCount []

/-- `urls.TopURLs`: an empty map short-circuits to the empty list; otherwise
the map entries are sorted descending by count and `list[0:n]` is returned.
`none` models the Go runtime panic (slice bounds out of range) that
`list[0:n]` raises when `n` exceeds the number of entries. -/
def TopURLs (u : List (String × Nat)) (n : Nat) : Option (List TopURL) :=
  if u.length = 0 then some []
  else
    let list := sortByCount (u.map fun p => ⟨p.1, p.2⟩)
    if n ≤ list.length then some (list.take n) else none

/-! ### Scalar counters (`counters.go`) -/

structure BasicTextCounters where
  Words : Nat
  Letters : Nat
  Lines : Nat
deriving DecidableEq

/-- Go `strings.Fields`: split around runs of whitespace. -/
def strFields (s : String) : List String := (fieldsAux s.data []).map fun l => ⟨l⟩

/-- `BasicTextCounters.addMessage`: letters counts the bytes left after
removing every space (`strings.Replace(m, " ", "", -1)`; Go `len` of a string
is its byte length). -/
def btcAddMessage (c : BasicTextCounters) (m : Message) : BasicTextCounters :=
  { Words := c.Words + (strFields m.Message).length
    Letters := c.Letters + utf8Len (m.Message.data.filter (fun ch => ch ≠ ' '))
    Lines := c.Lines + 1 }

/-- `countSuffixes`: how many whitespace-fields of the message end in the
given suffix. -/
def countSuffixes (message suffix : String) : Nat :=
  ((strFields message).filter (fun w => endsWithS w suffix)).length

/-- The rune loop of `AllCapsCount.addMessage`: sets the capital flag on a
character strictly between 'A' and 'Z', and returns early (`none`) on a
character strictly between 'a' and 'z'. -/
def allCapsLoop : List Char → Bool → Option Bool
  | [], hasCap => some hasCap
  | c :: rest, hasCap =>
    let hasCap := if 'A' < c ∧ c < 'Z' then true else hasCap
    if 'a' < c ∧ c < 'z' then none else allCapsLoop rest hasCap

def allCapsAdd (a : Nat) (m : Message) : Nat :=
  match allCapsLoop m.Message.data false with
  | some true => a + 1
  | _ => a

/-- The scalar-counter bundle owned by each aggregate: the counter types of
`counters.go` grouped as the spec's "scalar counters". -/
structure CounterBundle where
  Basic : BasicTextCounters
  Questions : Nat
  Exclamations : Nat
  AllCaps : Nat
deriving DecidableEq

def emptyBundle : CounterBundle := ⟨⟨0, 0, 0⟩, 0, 0, 0⟩

def bundleAdd (b : CounterBundle) (m : Message) : CounterBundle :=
  { Basic := btcAddMessage b.Basic m
    Questions := b.Questions + countSuffixes m.Message "?"
    Exclamations := b.Exclamations + countSuffixes m.Message "!"
    AllCaps := allCapsAdd b.AllCaps m }

/-! ### The entity graph

Go links entities with pointers; the model keeps every entity in its
authoritative id-keyed table on `Stats` and stores ids where the source
stores pointers.  The per-network `channels`/`users` maps and the per-user
`ChannelUsers` map therefore map a lowercased name to an id / a bundle. -/

/-- Modelled from the spec: the `ChannelUser` shape --- the per-(user,channel)
aggregate (the source reuses the `User` struct for it; only its message list
and scalar counters are ever touched). -/
structure ChannelUser where
  MessageIDs : List Nat
  Counters : CounterBundle
deriving DecidableEq

/-- Modelled from the spec: the `User` struct is not among the provided
sources.  Fields follow §3: id, networkID, display nick, message-id list,
scalar counters, and the `ChannelUsers` map keyed by lowercase channel name
(the key the source's `getChannelUser` looks up). -/
structure User where
  ID : Nat
  NetworkID : Nat
  Nick : String
  MessageIDs : List Nat
  Counters : CounterBundle
  ChannelUsers : List (String × ChannelUser)
deriving DecidableEq

/-- Modelled from the spec: `NewUser(id, networkID, nick)` creates an empty
lazily-initialized aggregate. -/
def NewUser (id nid : Nat) (nick : String) : User :=
  { ID := id, NetworkID := nid, Nick := nick, MessageIDs := [], Counters := emptyBundle, ChannelUsers := [] }

/-- Modelled from the spec: `User.addMessage` appends the message id to the
user's list and runs the user's scalar-counter update. -/
def userAddMessage (u : User) (m : Message) : User :=
  { u with MessageIDs := u.MessageIDs ++ [m.ID], Counters := bundleAdd u.Counters m }

/-- Modelled from the spec: `User.addChannelUser` creates the empty
per-channel aggregate under the (already lowercased) channel key. -/
def userAddChannelUser (u : User) (channel : String) : User :=
  { u with ChannelUsers := setA u.ChannelUsers channel ⟨[], emptyBundle⟩ }

/-- Modelled from the spec: the ChannelUser's message append and
scalar-counter update. -/
def cuAddMessage (cu : ChannelUser) (m : Message) : ChannelUser :=
  { cu with MessageIDs := cu.MessageIDs ++ [m.ID], Counters := bundleAdd cu.Counters m }

/-- Modelled from the spec: the `Channel` struct is not among the provided
sources.  Fields follow §3: id, networkID, name, message-id list, scalar
counters, kick count, action count. -/
structure Channel where
  ID : Nat
  NetworkID : Nat
  Name : String
  MessageIDs : List Nat
  Counters : CounterBundle
  Kicks : Nat
  Actions : Nat
deriving DecidableEq

/-- Modelled from the spec: `newChannel(id, n, name)` (the network pointer is
modelled by its id). -/
def newChannel (id nid : Nat) (name : String) : Channel :=
  { ID := id, NetworkID := nid, Name := name, MessageIDs := [], Counters := emptyBundle, Kicks := 0, Actions := 0 }

/-- Modelled from the spec: `Channel.addMessage` appends the message id and
runs the channel's scalar-counter update. -/
def channelAddMessage (c : Channel) (m : Message) : Channel :=
  { c with MessageIDs := c.MessageIDs ++ [m.ID], Counters := bundleAdd c.Counters m }

/-- Modelled from the spec: `Channel.addKick` increments the kick counter. -/
def channelAddKick (c : Channel) : Channel := { c with Kicks := c.Kicks + 1 }

/-- Modelled from the spec: `Channel.addAction` increments the action
counter. -/
def channelAddAction (c : Channel) : Channel := { c with Actions := c.Actions + 1 }

/-- The `Network` struct, fields exactly as listed in the `addNetwork` literal
of the source (`stats` back-pointer omitted --- the model passes the root
explicitly).  `channels` and `users` are the unexported derived maps from
lowercased name to entity (id in the model). -/
structure Network where
  ID : Nat
  Name : String
  ChannelIDs : List Nat
  UserIDs : List Nat
  MessageIDs : List Nat
  URLCounter : List (String × Nat)
  WordCounter : List (String × Nat)
  channels : List (String × Nat)
  users : List (String × Nat)
deriving DecidableEq

/-- Modelled from the spec: `NewURLCounter()` --- a fresh URL-token frequency
tracker (its constructor file is not among the provided sources; the tracker
itself is the `urls` map of `urls.go`). -/
def NewURLCounter : List (String × Nat) := []

/-- Modelled from the spec: `NewWordCounter()` --- a fresh generic-word
frequency tracker. -/
def NewWordCounter : List (String × Nat) := []

/-- Modelled from the spec: the word tracker records every whitespace field
of the message text. -/
def wordCounterAdd (u : List (String × Nat)) (m : Message) : List (String × Nat) :=
  (strFields m.Message).foldl bump u

/-- Modelled from the spec: `Network.addMessage` appends the message id to
the network's list and runs the network-wide token-tracker updates. -/
def networkAddMessage (n : Network) (m : Message) : Network :=
  { n with MessageIDs := n.MessageIDs ++ [m.ID]
           URLCounter := urlsAddMessage n.URLCounter m
           WordCounter := wordCounterAdd n.WordCounter m }

/-- Modelled from the spec: `Network.addChannel` registers the channel under
its lowercased name (the key `getChannel` looks up) and appends its id. -/
def networkAddChannel (n : Network) (c : Channel) : Network :=
  { n with ChannelIDs := n.ChannelIDs ++ [c.ID], channels := setA n.channels (lowerStr c.Name) c.ID }

/-- Modelled from the spec: `Network.addUser` registers the user under the
lowercased nick (the key `getUser` looks up) and appends the id. -/
def networkAddUser (n : Network) (u : User) : Network :=
  { n with UserIDs := n.UserIDs ++ [u.ID], users := setA n.users (lowerStr u.Nick) u.ID }

/-- The `Stats` root (the `sync.RWMutex` is dropped: concurrency is out of
scope and every operation is modelled as a whole-state transformer).
`networkByName` is the unexported derived index. -/
structure Stats where
  Channels : List (Nat × Channel)
  Networks : List (Nat × Network)
  Users : List (Nat × User)
  networkByName : List (String × Nat)
  NetworkIDCount : Nat
  MessageIDCount : Nat
  ChannelIDCount : Nat
  UserIDCount : Nat
deriving DecidableEq

/-- The freshly initialized `Stats` literal of `NewStats` (empty tables, all
id counters seeded at 1). -/
def freshStats : Stats :=
  { Channels := [], Networks := [], Users := [], networkByName := []
    NetworkIDCount := 1, MessageIDCount := 1, ChannelIDCount := 1, UserIDCount := 1 }

/-- `Stats.GetNetwork`: exact (not case-folded) lookup in `networkByName`;
`none` is the `nil` pointer. -/
def GetNetwork (s : Stats) (network : String) : Option Nat :=
  lookupA s.networkByName network

/-- `Stats.addNetwork`: allocate the next network id, build the literal with
empty lists and fresh trackers, store it, and index it under the lowercased
name. -/
def addNetwork (s : Stats) (name : String) : Nat × Stats :=
  let id := s.NetworkIDCount
  let n : Network :=
    { ID := id, Name := name, ChannelIDs := [], UserIDs := [], MessageIDs := []
      URLCounter := NewURLCounter, WordCounter := NewWordCounter, channels := [], users := [] }
  (id, { s with NetworkIDCount := id + 1
                Networks := setA s.Networks id n
                networkByName := setA s.networkByName (lowerStr name) id })

/-- `Stats.getNetwork`: case-insensitive get-or-create. -/
def getNetwork (s : Stats) (name : String) : Nat × Stats :=
  match lookupA s.networkByName (lowerStr name) with
  | some nid => (nid, s)
  | none => addNetwork s name

/-- Models the external collaborator `irc.Nick`: the nick portion of a
hostmask (`nick!user@host`). -/
def ircNick (hostmask : String) : String := ⟨hostmask.data.takeWhile (fun c => c ≠ '!')⟩

/-- `Stats.addUser`: allocate the next user id, store the new user, register
it on its network. -/
def addUser (s : Stats) (nid : Nat) (nick : String) : Nat × Stats :=
  let id := s.UserIDCount
  let u := NewUser id nid nick
  (id, { s with UserIDCount := id + 1
                Users := setA s.Users id u
                Networks := updateA s.Networks nid (fun n => networkAddUser n u) })

/-- `Stats.getUser`: extract the nick, look it up case-insensitively on the
network, create on miss.  The `none` network branch is unreachable in Go
(the caller holds a live pointer); it returns the state unchanged. -/
def getUser (s : Stats) (nid : Nat) (nameOrHost : String) : Nat × Stats :=
  let nick := ircNick nameOrHost
  match lookupA s.Networks nid with
  | none => (0, s)
  | some n =>
    match lookupA n.users (lowerStr nick) with
    | some uid => (uid, s)
    | none => addUser s nid nick

/-- `Stats.addChannel`. -/
def addChannel (s : Stats) (nid : Nat) (name : String) : Nat × Stats :=
  let id := s.ChannelIDCount
  let c := newChannel id nid name
  (id, { s with ChannelIDCount := id + 1
                Channels := setA s.Channels id c
                Networks := updateA s.Networks nid (fun n => networkAddChannel n c) })

/-- `Stats.getChannel`: case-insensitive get-or-create on the network. -/
def getChannel (s : Stats) (nid : Nat) (name : String) : Nat × Stats :=
  match lookupA s.Networks nid with
  | none => (0, s)
  | some n =>
    match lookupA n.channels (lowerStr name) with
    | some cid => (cid, s)
    | none => addChannel s nid name

/-- `Stats.getChannelUser`: ensure the per-channel aggregate exists under the
lowercased channel key; returns the key (the Go pointer into
`user.ChannelUsers`). -/
def getChannelUser (s : Stats) (uid : Nat) (channel : String) : String × Stats :=
  let key := lowerStr channel
  match lookupA s.Users uid with
  | none => (key, s)
  | some u =>
    match lookupA u.ChannelUsers key with
    | some _ => (key, s)
    | none => (key, { s with Users := updateA s.Users uid (fun v => userAddChannelUser v key) })

/-- `Stats.addMessage`: allocate the message id, build the record (ChannelID
zero when no channel), fan out to channel / kick-action / channel-user when a
channel was resolved, then always to network and user, in source order. -/
def statsAddMessage (s : Stats) (k : MsgKind) (nid : Nat) (c : Option Nat) (uid : Nat)
    (cu : Option String) (d : Nat) (m : String) : Message × Stats :=
  let id := s.MessageIDCount
  let s1 := { s with MessageIDCount := id + 1 }
  let msg0 : Message := { ID := id, Date := d, UserID := uid, ChannelID := 0, Message := m, Kind := k }
  match c with
  | none =>
    let sN := { s1 with Networks := updateA s1.Networks nid (fun n => networkAddMessage n msg0) }
    let sU := { sN with Users := updateA sN.Users uid (fun u => userAddMessage u msg0) }
    (msg0, sU)
  | some cid =>
    let msg1 := { msg0 with ChannelID := cid }
    let sA := { s1 with Channels := updateA s1.Channels cid (fun ch => channelAddMessage ch msg1) }
    let sB :=
      match k with
      | MsgKind.Kick => { sA with Channels := updateA sA.Channels cid channelAddKick }
      | MsgKind.Action => { sA with Channels := updateA sA.Channels cid channelAddAction }
      | _ => sA
    let sC :=
      match cu with
      | some key =>
        { sB with
          Users := updateA sB.Users uid
            (fun u => { u with ChannelUsers := updateA u.ChannelUsers key (fun v => cuAddMessage v msg1) }) }
      | none => sB
    let sD := { sC with Networks := updateA sC.Networks nid (fun n => networkAddMessage n msg1) }
    let sE := { sD with Users := updateA sD.Users uid (fun u => userAddMessage u msg1) }
    (msg1, sE)

/-- `Stats.AddMessage`: resolve network and user, resolve channel and
channel-user only when the channel name is non-empty, then record.  The
private `addMessage` returns the `Message`; the model surfaces it alongside
the new state. -/
def AddMessage (s : Stats) (kind : MsgKind) (network channel hostmask : String)
    (date : Nat) (message : String) : Message × Stats :=
  let pN := getNetwork s network
  let nid := pN.1
  let sN := pN.2
  let pU := getUser sN nid hostmask
  let uid := pU.1
  let sU := pU.2
  if channel ≠ "" then
    let pC := getChannel sU nid channel
    let pCU := getChannelUser pC.2 uid channel
    statsAddMessage pCU.2 kind nid (some pC.1) uid (some pCU.1) date message
  else
    statsAddMessage sU kind nid none uid none date message

/-- One inbound chat event, the argument tuple of `Stats.AddMessage`. -/
structure MsgSpec where
  kind : MsgKind
  net : String
  channel : String
  hostmask : String
  date : Nat
  text : String
deriving DecidableEq

def stepMsg (s : Stats) (m : MsgSpec) : Stats :=
  (AddMessage s m.kind m.net m.channel m.hostmask m.date m.text).2

/-- The states "built only by AddMessage calls": fold a message sequence from
the fresh state. -/
def runMsgs (ms : List MsgSpec) : Stats := ms.foldl stepMsg freshStats

/-! ### Persistence (`Save` / `loadDatabase` / `buildIndexes`)

The gob+gzip codec is the spec's black box: it reproduces every exported
field and drops unexported ones (`Stats.networkByName`, `Network.channels`,
`Network.users`). -/

/-- The unexported fields lost by gob encoding. -/
def stripNetwork (n : Network) : Network := { n with channels := [], users := [] }

def persistedOnly (s : Stats) : Stats :=
  { s with networkByName := []
           Networks := s.Networks.map fun p => (p.1, stripNetwork p.2) }

/-- Modelled from the spec: `Network.buildIndexes` is not among the provided
sources; it re-derives the per-network name maps by walking the authoritative
tables, with case-folded keys (§4.3). -/
def networkBuildIndexes (s : Stats) (n : Network) : Network :=
  { n with
    channels := n.ChannelIDs.foldl
      (fun acc cid =>
        match lookupA s.Channels cid with
        | some c => setA acc (lowerStr c.Name) cid
        | none => acc) []
    users := n.UserIDs.foldl
      (fun acc uid =>
        match lookupA s.Users uid with
        | some u => setA acc (lowerStr u.Nick) uid
        | none => acc) [] }

/-- `Stats.buildIndexes` (source): `s.networkByName[n.Name] = n` for every
stored network --- note the key is `n.Name`, not lowercased --- then each
network rebuilds its own maps. -/
def buildIndexes (s : Stats) : Stats :=
  { s with networkByName := s.Networks.foldl (fun acc p => setA acc p.2.Name p.1) []
           Networks := s.Networks.map fun p => (p.1, networkBuildIndexes s p.2) }

/-- `Save` followed by `loadDatabase` on the produced snapshot: the codec
round-trips the exported fields and `buildIndexes` re-derives the rest. -/
def roundTrip (s : Stats) : Stats := buildIndexes (persistedOnly s)

/-- Outcome of `Stats.Save`: `ok b` is a normal return of `b`; `fatalExit`
models `log.Fatal`, which terminates the process. -/
inductive SaveResult where
  | ok (b : Bool)
  | fatalExit
deriving DecidableEq

/-- `Stats.Save` with the codec's success as an oracle: on encode/write
failure the source calls `log.Fatal` (process exit) and its `return false` is
unreachable; on success it returns true.  The receiver is never mutated. -/
def Save (s : Stats) (encodeOk : Bool) : SaveResult × Stats :=
  if encodeOk then (SaveResult.ok true, s) else (SaveResult.fatalExit, s)

/-- The snapshot file as `loadDatabase` can find it: missing, unopenable,
undecodable, or a decodable snapshot of persisted state. -/
inductive FsFile where
  | absent
  | openError
  | corrupt
  | snapshot (p : Stats)

/-- `loadDatabase`: a missing file is `ok none` (cold start), open/decode
failures are errors, a good snapshot is decoded and re-indexed. -/
def loadDatabase : FsFile → Except String (Option Stats)
  | FsFile.absent => Except.ok none
  | FsFile.openError => Except.error "open"
  | FsFile.corrupt => Except.error "decode"
  | FsFile.snapshot p => Except.ok (some (buildIndexes p))

/-- `NewStats`: errors surface as `nil` (`none`), a loaded snapshot is used,
and a missing file falls through to the fresh literal. -/
def NewStats (f : FsFile) : Option Stats :=
  match loadDatabase f with
  | Except.error _ => none
  | Except.ok (some s) => some s
  | Except.ok none => some freshStats

/-! ### State invariants and observation helpers -/

/-- Well-formedness of one network's derived maps with respect to the
authoritative tables: every registered id dereferences (in Go these are live
pointers, which cannot dangle). -/
def wfNetwork (us : List (Nat × User)) (chs : List (Nat × Channel)) (n : Network) : Prop :=
  (∀ q ∈ n.users, (lookupA us q.2).isSome = true) ∧
  (∀ q ∈ n.channels, (lookupA chs q.2).isSome = true)

/-- Well-formedness of the table collection --- the Go heap facts the
id-table model makes explicit: the name index holds lowercase keys resolving
to live networks; every table entry carries its key as its id field, below
the id counter; keys are unique within each table; per-network maps
resolve. -/
def wfParts (chs : List (Nat × Channel)) (nets : List (Nat × Network)) (us : List (Nat × User))
    (nbn : List (String × Nat)) (nc cc uc : Nat) : Prop :=
  (∀ p ∈ nbn, lowerStr p.1 = p.1 ∧ (lookupA nets p.2).isSome = true) ∧
  (∀ p ∈ nets, p.2.ID = p.1 ∧ p.1 < nc ∧ wfNetwork us chs p.2) ∧
  (∀ p ∈ us, p.2.ID = p.1 ∧ p.1 < uc) ∧
  (∀ p ∈ chs, p.2.ID = p.1 ∧ p.1 < cc) ∧
  (keysA nets).Nodup ∧ (keysA us).Nodup ∧ (keysA chs).Nodup

/-- Well-formedness of a `Stats` state. -/
def wf (s : Stats) : Prop :=
  wfParts s.Channels s.Networks s.Users s.networkByName
    s.NetworkIDCount s.ChannelIDCount s.UserIDCount

instance wfNetworkDecidable (us : List (Nat × User)) (chs : List (Nat × Channel)) (n : Network) :
    Decidable (wfNetwork us chs n) := by
  unfold wfNetwork; infer_instance

instance wfPartsDecidable (chs : List (Nat × Channel)) (nets : List (Nat × Network))
    (us : List (Nat × User)) (nbn : List (String × Nat)) (nc cc uc : Nat) :
    Decidable (wfParts chs nets us nbn nc cc uc) := by
  unfold wfParts; infer_instance

instance wfDecidable (s : Stats) : Decidable (wf s) := by
  unfold wf; infer_instance

/-- Id discipline: keys are pairwise distinct within each kind and every
entity carries its table key as its immutable id. -/
def idsOKb (s : Stats) : Bool :=
  (s.Networks.all fun p => (p.2.ID = p.1 : Bool)) &&
  (s.Users.all fun p => (p.2.ID = p.1 : Bool)) &&
  (s.Channels.all fun p => (p.2.ID = p.1 : Bool)) &&
  decide (keysA s.Networks).Nodup && decide (keysA s.Users).Nodup &&
  decide (keysA s.Channels).Nodup

/-- Boolean list inclusion. -/
def subB (l1 l2 : List Nat) : Bool := l1.all fun x => l2.contains x

/-- Every id table of `s` persists into `t`: no entity is ever deleted. -/
def keysMono (s t : Stats) : Prop :=
  keysA s.Networks ⊆ keysA t.Networks ∧
  keysA s.Users ⊆ keysA t.Users ∧
  keysA s.Channels ⊆ keysA t.Channels

/-- The message-id list of the network stored under `nid` (empty when the id
is dangling, which well-formed states exclude). -/
def netMsgIDs (s : Stats) (nid : Nat) : List Nat :=
  ((lookupA s.Networks nid).map Network.MessageIDs).getD []

def userMsgIDs (s : Stats) (uid : Nat) : List Nat :=
  ((lookupA s.Users uid).map User.MessageIDs).getD []

def userLines (s : Stats) (uid : Nat) : Nat :=
  ((lookupA s.Users uid).map fun u => u.Counters.Basic.Lines).getD 0

/-- Every ChannelUser in the state, addressed by (user id, channel key). -/
def allCUs (s : Stats) : List (Nat × String × ChannelUser) :=
  s.Users.flatMap fun p => p.2.ChannelUsers.map fun q => (p.1, q.1, q.2)

/-! ### Observation helpers for the token tracker claims -/

/-- The count a tracker stores for a token (0 when absent). -/
def countD (u : List (String × Nat)) (t : String) : Nat := (lookupA u t).getD 0

/-- How many words of one message are recorded under token `t`: the
space-split words equal to `t` that the regex accepts. -/
def occurCount (m : Message) (t : String) : Nat :=
  ((splitOnSpace m.Message).filter fun w => w = t && urlWordMatch w).length

/-- The exact cumulative number of times token `t` was recorded over a
message sequence. -/
def totalCount (ms : List Message) (t : String) : Nat :=
  (ms.map fun m => occurCount m t).sum

def urlsOfMessages (ms : List Message) : List (String × Nat) :=
  ms.foldl urlsAddMessage NewURLs

/-- Strictly-descending-by-count check (the ordering Claim C3 asserts). -/
def strictDescB : List TopURL → Bool
  | [] => true
  | [_] => true
  | a :: b :: r => decide (b.Count < a.Count) && strictDescB (b :: r)

/-- Non-increasing-by-count check, in head-dominates-tail form. -/
def nonIncB : List TopURL → Bool
  | [] => true
  | a :: l => (l.all fun x => decide (x.Count ≤ a.Count)) && nonIncB l

/-- The amended top-N contract at one query: `TopURLs` succeeds, returns
exactly `n` pairs, non-increasing by count, every count given by `f`. -/
def topCheck (u : List (String × Nat)) (n : Nat) (f : String → Nat) : Bool :=
  match TopURLs u n with
  | none => false
  | some l => (l.length = n : Bool) && nonIncB l && (l.all fun x => (x.Count = f x.URL : Bool))

/-! ### The token policy exactly as Claim C7 words it

These two definitions follow the claim's sentence, not the source: split on
(all) whitespace, and count a word only when the *whole* word is an http(s)
URL or a bare domain.  They exist to be compared against `urlsAddMessage`. -/

/-- Claim C7's word policy: the word *is* a URL --- it starts with a scheme
or fully matches the bare-domain pattern. -/
def specURLWord (w : String) : Bool :=
  startsWithS w "http://" || startsWithS w "https://" || bareFullMatch w.data

/-- Claim C7's tracker update: whitespace split, whole-word policy. -/
def specAddMessage (u : List (String × Nat)) (m : Message) : List (String × Nat) :=
  (strFields m.Message).foldl (fun acc w => if specURLWord w then bump acc w else acc) u

/-! ### Concrete inputs used by counterexamples and witnesses -/

def msgA : Message := ⟨1, 0, 1, 0, "http://a.io", MsgKind.Privmsg⟩

def msgB : Message := ⟨2, 0, 1, 0, "http://b.io", MsgKind.Privmsg⟩

/-- A word the source regex accepts only through its end-anchored suffix
match: no whole-word reading makes it a URL. -/
def msgBang : Message := ⟨3, 0, 1, 0, "!!foo.com", MsgKind.Privmsg⟩

/-- Two URLs separated by a tab: one word for the source's single-space
split, two for a whitespace split. -/
def msgTab : Message := ⟨4, 0, 1, 0, "http://a.io\thttp://b.io", MsgKind.Privmsg⟩

def specFreenode : MsgSpec := ⟨MsgKind.Privmsg, "Freenode", "", "al!a@b", 0, "hi"⟩

def specChan : MsgSpec := ⟨MsgKind.Privmsg, "freenode", "#Chan", "Bob!x@y", 7, "m3 !!"⟩

/-- A one-message history containing a mixed-case network name. -/
def exampleStats1 : Stats := runMsgs [specFreenode]

/-! ## Theorems -/

/-! ### Association list laws -/

theorem lookupA_setA {α β : Type} [DecidableEq α] (l : List (α × β)) (a : α) (b : β) (x : α) :
    lookupA (setA l a b) x = if a = x then some b else lookupA l x := by
  induction l with
  | nil => by_cases h : a = x <;> simp [setA, lookupA, h]
  | cons p rest ih =>
    obtain ⟨k, v⟩ := p
    by_cases hk : k = a
    · subst hk
      by_cases hx : k = x <;> simp [setA, lookupA, hx]
    · by_cases hx : k = x
      · subst hx
        have hax : ¬a = k := fun h => hk h.symm
        simp [setA, lookupA, hk, hax]
      · simp [setA, lookupA, hk, hx, ih]

theorem lookupA_updateA {α β : Type} [DecidableEq α] (l : List (α × β)) (a : α) (f : β → β) (x : α) :
    lookupA (updateA l a f) x = if a = x then (lookupA l a).map f else lookupA l x := by
  induction l with
  | nil => by_cases h : a = x <;> simp [updateA, lookupA, h]
  | cons p rest ih =>
    obtain ⟨k, v⟩ := p
    by_cases hk : k = a
    · subst hk
      by_cases hx : k = x <;> simp [updateA, lookupA, hx]
    · by_cases hx : k = x
      · subst hx
        have hax : ¬a = k := fun h => hk h.symm
        simp [updateA, lookupA, hk, hax]
      · simp [updateA, lookupA, hk, hx, ih]

theorem keysA_updateA {α β : Type} [DecidableEq α] (l : List (α × β)) (a : α) (f : β → β) :
    keysA (updateA l a f) = keysA l := by
  induction l with
  | nil => rfl
  | cons p rest ih =>
    obtain ⟨k, v⟩ := p
    by_cases hk : k = a
    · simp [updateA, keysA, hk]
    · simp only [updateA, if_neg hk, keysA, List.map_cons]
      simpa [keysA] using ih

theorem lookupA_isSome_iff_mem_keysA {α β : Type} [DecidableEq α] (l : List (α × β)) (x : α) :
    (lookupA l x).isSome = true ↔ x ∈ keysA l := by
  induction l with
  | nil => simp [lookupA, keysA]
  | cons p rest ih =>
    obtain ⟨k, v⟩ := p
    by_cases hk : k = x
    · subst hk; simp [lookupA, keysA]
    · have hxk : ¬x = k := fun h => hk h.symm
      simp [lookupA, keysA, hk, hxk, ih]

theorem setA_of_notMem {α β : Type} [DecidableEq α] (l : List (α × β)) (a : α) (b : β)
    (h : a ∉ keysA l) : setA l a b = l ++ [(a, b)] := by
  induction l with
  | nil => rfl
  | cons p rest ih =>
    obtain ⟨k, v⟩ := p
    have hk : ¬k = a := by
      intro hka; exact h (by simp [keysA, hka])
    have hrest : a ∉ keysA rest := fun hm => h (by simp [keysA] at hm ⊢; exact Or.inr hm)
    simp [setA, hk, ih hrest]

theorem mem_of_lookupA {α β : Type} [DecidableEq α] (l : List (α × β)) (x : α) (v : β)
    (h : lookupA l x = some v) : (x, v) ∈ l := by
  induction l with
  | nil => simp [lookupA] at h
  | cons p rest ih =>
    obtain ⟨k, w⟩ := p
    by_cases hk : k = x
    · subst hk
      simp [lookupA] at h
      simp [h]
    · simp [lookupA, hk] at h
      simp [ih h]

theorem lookupA_of_mem_nodup {α β : Type} [DecidableEq α] (l : List (α × β)) (a : α) (b : β)
    (hm : (a, b) ∈ l) (hnd : (keysA l).Nodup) : lookupA l a = some b := by
  induction l with
  | nil => simp at hm
  | cons p rest ih =>
    obtain ⟨k, v⟩ := p
    have hnd' : k ∉ keysA rest ∧ (keysA rest).Nodup := List.nodup_cons.mp hnd
    rcases List.mem_cons.mp hm with h1 | h2
    · have hk : a = k ∧ b = v := Prod.mk.injEq .. ▸ h1
      simp [lookupA, hk.1.symm, hk.2]
    · have hk : ¬k = a := by
        intro hka; subst hka
        exact hnd'.1 (List.mem_map_of_mem Prod.fst h2)
      simp [lookupA, hk, ih h2 hnd'.2]

theorem mem_updateA {α β : Type} [DecidableEq α] (l : List (α × β)) (a : α) (f : β → β)
    (x : α × β) (hx : x ∈ updateA l a f) :
    x ∈ l ∨ ∃ v, (a, v) ∈ l ∧ x = (a, f v) := by
  induction l with
  | nil => simp [updateA] at hx
  | cons p rest ih =>
    obtain ⟨k, v⟩ := p
    by_cases hk : k = a
    · subst hk
      simp [updateA] at hx
      rcases hx with h1 | h2
      · exact Or.inr ⟨v, by simp, h1⟩
      · exact Or.inl (List.mem_cons_of_mem _ h2)
    · simp [updateA, hk] at hx
      rcases hx with h1 | h2
      · exact Or.inl (by simp [h1])
      · rcases ih h2 with h3 | ⟨w, hw, hxw⟩
        · exact Or.inl (List.mem_cons_of_mem _ h3)
        · exact Or.inr ⟨w, List.mem_cons_of_mem _ hw, hxw⟩

theorem notMem_keysA_of_lt_bound {β : Type} (l : List (Nat × β)) (c : Nat)
    (h : ∀ k ∈ keysA l, k < c) : c ∉ keysA l := fun hm => absurd (h c hm) (lt_irrefl c)

/-! ### Lowercasing -/

theorem toNat_ofNat_of_valid (n : Nat) (h : n.isValidChar) : (Char.ofNat n).toNat = n := by
  simp [Char.ofNat, h, Char.ofNatAux, Char.toNat, UInt32.toNat, BitVec.toNat_ofNatLt]

theorem lcChar_idem (c : Char) : lcChar (lcChar c) = lcChar c := by
  unfold lcChar
  by_cases h : 65 ≤ c.toNat ∧ c.toNat ≤ 90
  · have hv : (c.toNat + 32).isValidChar := Or.inl (by omega)
    have ht : (Char.ofNat (c.toNat + 32)).toNat = c.toNat + 32 := toNat_ofNat_of_valid _ hv
    have hno : ¬(65 ≤ (Char.ofNat (c.toNat + 32)).toNat ∧ (Char.ofNat (c.toNat + 32)).toNat ≤ 90) := by
      rw [ht]; omega
    simp [h, hno]
  · simp [h]

theorem lowerStr_idem (s : String) : lowerStr (lowerStr s) = lowerStr s := by
  unfold lowerStr
  simp [List.map_map, Function.comp_def, lcChar_idem]

/-! ### Sorting facts for the top-N view -/

theorem mem_insertByCount (a x : TopURL) (l : List TopURL) :
    x ∈ insertByCount a l ↔ x = a ∨ x ∈ l := by
  induction l with
  | nil => simp [insertByCount]
  | cons b bs ih =>
    by_cases h : b.Count < a.Count
    · simp only [insertByCount, if_pos h, List.mem_cons]
    · simp only [insertByCount, if_neg h, List.mem_cons, ih]
      tauto

theorem length_insertByCount (a : TopURL) (l : List TopURL) :
    (insertByCount a l).length = l.length + 1 := by
  induction l with
  | nil => rfl
  | cons b bs ih =>
    by_cases h : b.Count < a.Count
    · simp [insertByCount, h]
    · simp [insertByCount, h, ih]

theorem length_sortByCount (l : List TopURL) : (sortByCount l).length = l.length := by
  induction l with
  | nil => rfl
  | cons a l ih => simp [sortByCount, List.foldr_cons, length_insertByCount, ih.symm]

theorem mem_sortByCount (x : TopURL) (l : List TopURL) : x ∈ sortByCount l ↔ x ∈ l := by
  induction l with
  | nil => simp [sortByCount]
  | cons a l ih =>
    simp only [sortByCount, List.foldr_cons] at *
    rw [mem_insertByCount, ih, List.mem_cons]

theorem nonIncB_insertByCount (a : TopURL) (l : List TopURL) (h : nonIncB l = true) :
    nonIncB (insertByCount a l) = true := by
  induction l with
  | nil => simp [insertByCount, nonIncB]
  | cons b bs ih =>
    rw [nonIncB, Bool.and_eq_true, List.all_eq_true] at h
    obtain ⟨hb, hbs⟩ := h
    by_cases hlt : b.Count < a.Count
    · rw [insertByCount, if_pos hlt, nonIncB, Bool.and_eq_true, List.all_eq_true]
      refine ⟨?_, by rw [nonIncB, Bool.and_eq_true, List.all_eq_true]; exact ⟨hb, hbs⟩⟩
      intro x hx
      rcases List.mem_cons.mp hx with h1 | h2
      · subst h1; exact decide_eq_true (Nat.le_of_lt hlt)
      · have := decide_eq_true_eq.mp (hb x h2)
        exact decide_eq_true (Nat.le_trans this (Nat.le_of_lt hlt))
    · rw [insertByCount, if_neg hlt, nonIncB, Bool.and_eq_true, List.all_eq_true]
      refine ⟨?_, ih hbs⟩
      intro x hx
      rcases (mem_insertByCount a x bs).mp hx with h1 | h2
      · subst h1; exact decide_eq_true (Nat.le_of_not_lt hlt)
      · exact hb x h2

theorem nonIncB_sortByCount (l : List TopURL) : nonIncB (sortByCount l) = true := by
  induction l with
  | nil => rfl
  | cons a l ih => exact nonIncB_insertByCount a _ ih

theorem nonIncB_take (n : Nat) (l : List TopURL) (h : nonIncB l = true) :
    nonIncB (l.take n) = true := by
  induction l generalizing n with
  | nil => simp [List.take_nil, h]
  | cons a l ih =>
    cases n with
    | zero => rfl
    | succ m =>
      rw [nonIncB, Bool.and_eq_true, List.all_eq_true] at h
      rw [List.take_succ_cons, nonIncB, Bool.and_eq_true, List.all_eq_true]
      exact ⟨fun x hx => h.1 x (List.mem_of_mem_take hx), ih m h.2⟩

/-! ### Exact counting in the URL tracker -/

theorem countD_bump (u : List (String × Nat)) (w t : String) :
    countD (bump u w) t = countD u t + if w = t then 1 else 0 := by
  unfold bump countD
  rw [lookupA_setA]
  by_cases h : w = t <;> simp [h]

theorem countD_foldWords (ws : List String) (u : List (String × Nat)) (t : String) :
    countD (ws.foldl (fun acc w => if urlWordMatch w then bump acc w else acc) u) t
      = countD u t + (ws.filter fun w => w = t && urlWordMatch w).length := by
  induction ws generalizing u with
  | nil => simp
  | cons w ws ih =>
    simp only [List.foldl_cons]
    by_cases hm : urlWordMatch w
    · by_cases ht : w = t
      · subst ht
        rw [if_pos hm, ih, countD_bump]
        simp [hm, List.filter_cons]
        omega
      · rw [if_pos hm, ih, countD_bump]
        simp [ht, List.filter_cons]
    · rw [if_neg hm, ih]
      simp [hm, List.filter_cons]

theorem countD_urlsAddMessage (u : List (String × Nat)) (m : Message) (t : String) :
    countD (urlsAddMessage u m) t = countD u t + occurCount m t :=
  countD_foldWords (splitOnSpace m.Message) u t

theorem countD_foldMessages (ms : List Message) (u : List (String × Nat)) (t : String) :
    countD (ms.foldl urlsAddMessage u) t = countD u t + totalCount ms t := by
  induction ms generalizing u with
  | nil => simp [totalCount]
  | cons m ms ih =>
    rw [List.foldl_cons, ih, countD_urlsAddMessage]
    simp [totalCount]
    omega

theorem countD_urlsOfMessages (ms : List Message) (t : String) :
    countD (urlsOfMessages ms) t = totalCount ms t := by
  rw [urlsOfMessages, countD_foldMessages]
  simp [countD, NewURLs, lookupA]

theorem keysA_setA_mem {α β : Type} [DecidableEq α] (l : List (α × β)) (a : α) (b : β)
    (h : a ∈ keysA l) : keysA (setA l a b) = keysA l := by
  induction l with
  | nil => simp [keysA] at h
  | cons p rest ih =>
    obtain ⟨k, v⟩ := p
    by_cases hk : k = a
    · simp [setA, hk, keysA]
    · have hr : a ∈ keysA rest := by
        rcases List.mem_cons.mp h with h1 | h2
        · exact absurd h1.symm hk
        · exact h2
      simp only [setA, if_neg hk, keysA, List.map_cons]
      simpa [keysA] using ih hr

theorem nodup_keys_bump (u : List (String × Nat)) (w : String)
    (h : (keysA u).Nodup) : (keysA (bump u w)).Nodup := by
  unfold bump
  by_cases hm : w ∈ keysA u
  · rw [keysA_setA_mem u w _ hm]; exact h
  · rw [setA_of_notMem u w _ hm]
    simp only [keysA, List.map_append, List.map_cons, List.map_nil]
    rw [List.nodup_append]
    exact ⟨h, List.nodup_singleton w, by simpa [keysA] using hm⟩

theorem nodup_keys_urlsAddMessage (u : List (String × Nat)) (m : Message)
    (h : (keysA u).Nodup) : (keysA (urlsAddMessage u m)).Nodup := by
  rw [urlsAddMessage]
  generalize splitOnSpace m.Message = ws
  induction ws generalizing u with
  | nil => exact h
  | cons w ws ih =>
    rw [List.foldl_cons]
    by_cases hm : urlWordMatch w
    · rw [if_pos hm]; exact ih _ (nodup_keys_bump u w h)
    · rw [if_neg hm]; exact ih _ h

theorem nodup_keys_urlsOfMessages (ms : List Message) :
    (keysA (urlsOfMessages ms)).Nodup := by
  rw [urlsOfMessages]
  have h0 : (keysA NewURLs).Nodup := List.nodup_nil
  generalize NewURLs = u at h0 ⊢
  induction ms generalizing u with
  | nil => exact h0
  | cons m ms ih => exact ih _ (nodup_keys_urlsAddMessage u m h0)

theorem TopURLs_eq_some (u : List (String × Nat)) (n : Nat) (h : n ≤ u.length) :
    TopURLs u n = some ((sortByCount (u.map fun p => ⟨p.1, p.2⟩)).take n) := by
  rw [TopURLs]
  by_cases h0 : u.length = 0
  · have hu : u = [] := List.length_eq_zero.mp h0
    subst hu
    have hn : n = 0 := Nat.le_zero.mp h
    subst hn
    rfl
  · rw [if_neg h0]
    have hl : (sortByCount (u.map fun p => ⟨p.1, p.2⟩)).length = u.length := by
      rw [length_sortByCount, List.length_map]
    rw [if_pos (hl ▸ h)]

/-! ### Claim C1 -/

/-- C1: the claim says `TopURLs n` clamps `n` to the number of distinct
tokens and callers never observe an out-of-range failure.  The code slices
`list[0:n]` without clamping: on a tracker holding one token, `TopURLs 2`
hits the Go runtime's slice-bounds panic (modelled `none`) instead of
returning the single token, while the in-range query `TopURLs 1` works.
The spec itself fixes clamping as the contract, so this is a code bug. -/
theorem C1_topn_out_of_range :
    TopURLs [("http://a.io", 1)] 2 = none ∧
    TopURLs [("http://a.io", 1)] 1 = some [⟨"http://a.io", 1⟩] := by decide

/-! ### Claim C3 -/

/-- C3 counterexample: two tokens recorded once each and queried with
`n = 2` (well within the distinct-token count) come back with equal counts,
so the result is *not* sorted strictly descending by count as the claim
states; ties make strictness unachievable. -/
theorem C3_counterexample_tie :
    TopURLs (urlsOfMessages [msgA, msgB]) 2
      = some [⟨"http://b.io", 1⟩, ⟨"http://a.io", 1⟩] ∧
    strictDescB [⟨"http://b.io", 1⟩, ⟨"http://a.io", 1⟩] = false := by decide

/-- C3 amended: for every sequence of recording calls and every `n` not
exceeding the number of distinct tokens, `TopURLs` returns exactly `n`
(token, count) pairs sorted in *non-increasing* order by count, and each
returned count equals the exact cumulative number of times the token was
recorded. -/
theorem C3_top_sorted_exact (ms : List Message) (n : Nat)
    (h : n ≤ (urlsOfMessages ms).length) :
    topCheck (urlsOfMessages ms) n (totalCount ms) = true := by
  have hnd : (keysA (urlsOfMessages ms)).Nodup := nodup_keys_urlsOfMessages ms
  rw [topCheck]
  rw [TopURLs_eq_some (urlsOfMessages ms) n h]
  simp only [Bool.and_eq_true, List.all_eq_true, decide_eq_true_eq]
  refine ⟨⟨?_, ?_⟩, ?_⟩
  · rw [List.length_take, length_sortByCount, List.length_map]
    exact Nat.min_eq_left h
  · exact nonIncB_take n _ (nonIncB_sortByCount _)
  · intro x hx
    have hx1 : x ∈ sortByCount ((urlsOfMessages ms).map fun p => ⟨p.1, p.2⟩) :=
      List.mem_of_mem_take hx
    have hx2 : x ∈ (urlsOfMessages ms).map fun p => ⟨p.1, p.2⟩ :=
      (mem_sortByCount _ _).mp hx1
    obtain ⟨p, hp, hpx⟩ := List.mem_map.mp hx2
    have hmem : (x.URL, x.Count) ∈ urlsOfMessages ms := by
      have : x.URL = p.1 ∧ x.Count = p.2 := by
        cases hpx; exact ⟨rfl, rfl⟩
      rw [this.1, this.2]
      exact hp
    have hlook : lookupA (urlsOfMessages ms) x.URL = some x.Count :=
      lookupA_of_mem_nodup _ _ _ hmem hnd
    have : countD (urlsOfMessages ms) x.URL = x.Count := by
      rw [countD, hlook]; rfl
    rw [← countD_urlsOfMessages ms x.URL, this]

/-- C3 witness: the amended contract checked at a concrete two-token,
`n = 2` query. -/
theorem C3_witness :
    2 ≤ (urlsOfMessages [msgA, msgB]).length ∧
    topCheck (urlsOfMessages [msgA, msgB]) 2 (totalCount [msgA, msgB]) = true :=
  ⟨by decide, C3_top_sorted_exact [msgA, msgB] 2 (by decide)⟩

/-! ### Claim C7 -/

/-- C7 counterexample: the tracker does not implement the claim's policy.
`"!!foo.com"` is not a URL under any whole-word reading (the claim's
"is a scheme-less bare domain"), yet the code records it, because the
bare-domain alternative of `urlRegex` is anchored only at the end of the
word and `"foo.com"` is a matching suffix.  And a tab does not separate
words: the code splits on single spaces only, so two tab-separated URLs
are recorded as one token. -/
theorem C7_counterexample :
    specAddMessage NewURLs msgBang ≠ urlsAddMessage NewURLs msgBang ∧
    specAddMessage NewURLs msgTab ≠ urlsAddMessage NewURLs msgTab := by decide

/-- C7 amended: the URL tracker splits the message text on single space
characters; a word is counted exactly when it starts with `http://` or
`https://` or some suffix of it matches the end-anchored bare-domain
pattern (`urlWordMatch`); the exact word, trailing punctuation included,
is the token, and each message adds to every token's count exactly the
number of its qualifying words equal to that token (`occurCount`). -/
theorem C7_url_token_policy (u : List (String × Nat)) (m : Message) (t : String) :
    countD (urlsAddMessage u m) t = countD u t + occurCount m t :=
  countD_urlsAddMessage u m t

/-! ### Claim C2 -/

/-- C2: save/load does *not* reproduce every name-index lookup.  On the
write path `addNetwork` indexes the network under its lowercased name, but
`buildIndexes` (run after decode) indexes it under the stored `n.Name`
verbatim.  For a network created as "Freenode" the pre-save state answers
`GetNetwork "freenode"`; the reloaded state answers `GetNetwork "Freenode"`
instead --- and the internal lowercasing `getNetwork` would then miss it and
create a duplicate.  The ids survive the round trip; the derived index does
not. -/
theorem C2_roundtrip_lookup_bug :
    GetNetwork exampleStats1 "freenode" = some 1 ∧
    GetNetwork (roundTrip exampleStats1) "freenode" = none ∧
    GetNetwork exampleStats1 "Freenode" = none ∧
    GetNetwork (roundTrip exampleStats1) "Freenode" = some 1 := by decide

/-! ### Claim C4 -/

/-- C4: an encode/write failure during `Save` is *not* reported to the
caller as a failed save.  The source calls `log.Fatal` on the encode error,
which terminates the process; the `return false` after it is unreachable
dead code (itself evidence that reporting was the intent).  The receiver is
indeed left unmutated, but the caller never observes a `false` return. -/
theorem C4_save_encode_fatal :
    Save freshStats false = (SaveResult.fatalExit, freshStats) ∧
    SaveResult.fatalExit ≠ SaveResult.ok false := by decide

/-! ### Claim C8 -/

/-- C8: with no snapshot file present, `loadDatabase` reports "no prior
state" without error and `NewStats` returns the fresh literal: empty
tables, empty name index, and all four id counters seeded at 1. -/
theorem C8_cold_start :
    NewStats FsFile.absent = some freshStats ∧
    loadDatabase FsFile.absent = Except.ok none ∧
    freshStats.Networks = [] ∧ freshStats.Channels = [] ∧ freshStats.Users = [] ∧
    freshStats.networkByName = [] ∧
    freshStats.NetworkIDCount = 1 ∧ freshStats.MessageIDCount = 1 ∧
    freshStats.ChannelIDCount = 1 ∧ freshStats.UserIDCount = 1 :=
  ⟨rfl, rfl, rfl, rfl, rfl, rfl, rfl, rfl, rfl, rfl⟩

/-! ### More association-list laws, for the entity graph -/

theorem mem_setA_cases {α β : Type} [DecidableEq α] (l : List (α × β)) (a : α) (b : β)
    (x : α × β) (hx : x ∈ setA l a b) : x = (a, b) ∨ x ∈ l := by
  induction l with
  | nil => simpa [setA] using hx
  | cons p rest ih =>
    obtain ⟨k, v⟩ := p
    by_cases hk : k = a
    · rw [setA, if_pos hk] at hx
      rcases List.mem_cons.mp hx with h1 | h2
      · exact Or.inl h1
      · exact Or.inr (List.mem_cons_of_mem _ h2)
    · rw [setA, if_neg hk] at hx
      rcases List.mem_cons.mp hx with h1 | h2
      · exact Or.inr (by simp [h1])
      · rcases ih h2 with h3 | h4
        · exact Or.inl h3
        · exact Or.inr (List.mem_cons_of_mem _ h4)

theorem nodup_keysA_setA {α β : Type} [DecidableEq α] (l : List (α × β)) (a : α) (b : β)
    (h : (keysA l).Nodup) : (keysA (setA l a b)).Nodup := by
  by_cases hm : a ∈ keysA l
  · rw [keysA_setA_mem l a b hm]; exact h
  · rw [setA_of_notMem l a b hm]
    simp only [keysA, List.map_append, List.map_cons, List.map_nil]
    rw [List.nodup_append]
    exact ⟨h, List.nodup_singleton a, by simpa [keysA] using hm⟩

theorem keysA_lt_of_entries {β : Type} (l : List (Nat × β)) (c : Nat)
    (h : ∀ p ∈ l, p.1 < c) : ∀ k ∈ keysA l, k < c := by
  intro k hk
  obtain ⟨p, hp, hpk⟩ := List.mem_map.mp hk
  exact hpk ▸ h p hp

theorem isSome_lookupA_setA {α β : Type} [DecidableEq α] (l : List (α × β)) (a : α) (b : β)
    (x : α) (h : (lookupA l x).isSome = true) : (lookupA (setA l a b) x).isSome = true := by
  rw [lookupA_setA]
  split
  · rfl
  · exact h

theorem isSome_lookupA_updateA {α β : Type} [DecidableEq α] (l : List (α × β)) (a : α)
    (f : β → β) (x : α) : (lookupA (updateA l a f) x).isSome = (lookupA l x).isSome := by
  rw [lookupA_updateA]
  by_cases h : a = x
  · subst h
    cases lookupA l a <;> simp
  · rw [if_neg h]

theorem mem_keysA_setA_of_mem {α β : Type} [DecidableEq α] (l : List (α × β)) (a : α) (b : β)
    (x : α) (h : x ∈ keysA l) : x ∈ keysA (setA l a b) := by
  rw [← lookupA_isSome_iff_mem_keysA] at h ⊢
  exact isSome_lookupA_setA l a b x h

theorem wfNetwork_mono (us us' : List (Nat × User)) (chs chs' : List (Nat × Channel))
    (n : Network)
    (hu : ∀ i, (lookupA us i).isSome = true → (lookupA us' i).isSome = true)
    (hc : ∀ i, (lookupA chs i).isSome = true → (lookupA chs' i).isSome = true)
    (h : wfNetwork us chs n) : wfNetwork us' chs' n :=
  ⟨fun q hq => hu q.2 (h.1 q hq), fun q hq => hc q.2 (h.2 q hq)⟩

/-! ### Projection helpers over the tables -/

theorem getD_map_lookupA_updateA {α β γ : Type} [DecidableEq α] (l : List (α × β)) (a : α)
    (f : β → β) (g : β → γ) (x : α) (dflt : γ) (hf : ∀ b, g (f b) = g b) :
    ((lookupA (updateA l a f) x).map g).getD dflt = ((lookupA l x).map g).getD dflt := by
  rw [lookupA_updateA]
  by_cases h : a = x
  · subst h
    cases lookupA l a <;> simp [hf]
  · rw [if_neg h]

/-- The collection of ChannelUsers carried by a user table. -/
def cusOf (l : List (Nat × User)) : List (Nat × String × ChannelUser) :=
  l.flatMap fun p => p.2.ChannelUsers.map fun q => (p.1, q.1, q.2)

theorem allCUs_eq (s : Stats) : allCUs s = cusOf s.Users := rfl

theorem cusOf_updateA (l : List (Nat × User)) (a : Nat) (f : User → User)
    (hf : ∀ u, (f u).ChannelUsers = u.ChannelUsers) :
    cusOf (updateA l a f) = cusOf l := by
  induction l with
  | nil => rfl
  | cons p rest ih =>
    obtain ⟨k, v⟩ := p
    by_cases hk : k = a
    · simp only [cusOf, updateA, if_pos hk, List.flatMap_cons, hf]
    · simp only [cusOf, updateA, if_neg hk, List.flatMap_cons]
      rw [show ((updateA rest a f).flatMap fun p => List.map (fun q => (p.1, q.1, q.2)) p.2.ChannelUsers)
            = rest.flatMap fun p => List.map (fun q => (p.1, q.1, q.2)) p.2.ChannelUsers from ih]

theorem cusOf_setA_fresh (l : List (Nat × User)) (id : Nat) (u : User)
    (hid : id ∉ keysA l) (hu : u.ChannelUsers = []) :
    cusOf (setA l id u) = cusOf l := by
  rw [cusOf, setA_of_notMem l id u hid]
  simp [List.flatMap_append, hu, cusOf]

/-! ### Network resolution (`getNetwork` / `addNetwork`) -/

/-- After resolving, the lowercased name is indexed to the returned id. -/
theorem gn_resolves (s : Stats) (a : String) :
    lookupA (getNetwork s a).2.networkByName (lowerStr a) = some (getNetwork s a).1 := by
  cases hl : lookupA s.networkByName (lowerStr a) with
  | some nid => simp [getNetwork, hl]
  | none => simp [getNetwork, hl, addNetwork, lookupA_setA]

theorem gn_frame (s : Stats) (a : String) :
    (getNetwork s a).2.Channels = s.Channels ∧
    (getNetwork s a).2.Users = s.Users ∧
    (getNetwork s a).2.ChannelIDCount = s.ChannelIDCount ∧
    (getNetwork s a).2.UserIDCount = s.UserIDCount ∧
    (getNetwork s a).2.MessageIDCount = s.MessageIDCount := by
  cases hl : lookupA s.networkByName (lowerStr a) with
  | some nid => simp [getNetwork, hl]
  | none => simp [getNetwork, hl, addNetwork]

theorem wf_addNetwork (s : Stats) (name : String) (h : wf s) : wf (addNetwork s name).2 := by
  obtain ⟨hNBN, hNet, hUser, hChan, hndN, hndU, hndC⟩ := h
  have hfresh : s.NetworkIDCount ∉ keysA s.Networks :=
    notMem_keysA_of_lt_bound _ _ (keysA_lt_of_entries _ _ fun p hp => (hNet p hp).2.1)
  simp only [addNetwork]
  refine ⟨?_, ?_, ?_, ?_, ?_, hndU, hndC⟩
  · intro p hp
    rcases mem_setA_cases _ _ _ p hp with h1 | h2
    · subst h1
      exact ⟨lowerStr_idem name, by simp [lookupA_setA]⟩
    · exact ⟨(hNBN p h2).1, isSome_lookupA_setA _ _ _ _ ((hNBN p h2).2)⟩
  · intro p hp
    rcases mem_setA_cases _ _ _ p hp with h1 | h2
    · subst h1
      refine ⟨rfl, Nat.lt_succ_self _, ?_, ?_⟩
      · intro q hq; simp at hq
      · intro q hq; simp at hq
    · exact ⟨(hNet p h2).1, Nat.lt_succ_of_lt ((hNet p h2).2.1), (hNet p h2).2.2⟩
  · exact hUser
  · exact hChan
  · exact nodup_keysA_setA _ _ _ hndN

theorem wf_getNetwork (s : Stats) (a : String) (h : wf s) : wf (getNetwork s a).2 := by
  cases hl : lookupA s.networkByName (lowerStr a) with
  | some nid => simpa [getNetwork, hl] using h
  | none =>
    have := wf_addNetwork s a h
    simpa [getNetwork, hl] using this

/-- The resolved network id dereferences in the resolved state. -/
theorem gn_deref (s : Stats) (a : String) (h : wf s) :
    (lookupA (getNetwork s a).2.Networks (getNetwork s a).1).isSome = true := by
  cases hl : lookupA s.networkByName (lowerStr a) with
  | some nid =>
    have hm := mem_of_lookupA _ _ _ hl
    have := (h.1 _ hm).2
    simpa [getNetwork, hl] using this
  | none => simp [getNetwork, hl, addNetwork, lookupA_setA]

/-! ### User resolution (`getUser` / `addUser`) -/

theorem wf_addUser (s : Stats) (nid : Nat) (nick : String) (h : wf s) :
    wf (addUser s nid nick).2 := by
  obtain ⟨hNBN, hNet, hUser, hChan, hndN, hndU, hndC⟩ := h
  have hfresh : s.UserIDCount ∉ keysA s.Users :=
    notMem_keysA_of_lt_bound _ _ (keysA_lt_of_entries _ _ fun p hp => (hUser p hp).2)
  simp only [addUser]
  refine ⟨?_, ?_, ?_, ?_, ?_, ?_, hndC⟩
  · intro p hp
    refine ⟨(hNBN p hp).1, ?_⟩
    rw [isSome_lookupA_updateA]
    exact (hNBN p hp).2
  · intro p hp
    rcases mem_updateA _ _ _ p hp with h2 | ⟨v, hv, hpv⟩
    · refine ⟨(hNet p h2).1, (hNet p h2).2.1, ?_⟩
      exact wfNetwork_mono _ _ _ _ _
        (fun i hi => isSome_lookupA_setA _ _ _ _ hi) (fun i hi => hi) (hNet p h2).2.2
    · subst hpv
      have hvid : v.ID = nid := (hNet (nid, v) hv).1
      refine ⟨by simp [networkAddUser, hvid], (hNet (nid, v) hv).2.1, ?_, ?_⟩
      · intro q hq
        have hq2 : q ∈ setA v.users (lowerStr nick) s.UserIDCount := by
          simpa [networkAddUser, NewUser] using hq
        rcases mem_setA_cases _ _ _ q hq2 with h3 | h4
        · subst h3
          simp [lookupA_setA]
        · exact isSome_lookupA_setA _ _ _ _ ((hNet (nid, v) hv).2.2.1 q h4)
      · intro q hq
        have hq2 : q ∈ v.channels := by simpa [networkAddUser] using hq
        exact (hNet (nid, v) hv).2.2.2 q hq2
  · intro p hp
    rcases mem_setA_cases _ _ _ p hp with h1 | h2
    · subst h1
      exact ⟨rfl, Nat.lt_succ_self _⟩
    · exact ⟨(hUser p h2).1, Nat.lt_succ_of_lt (hUser p h2).2⟩
  · exact hChan
  · rw [keysA_updateA]; exact hndN
  · exact nodup_keysA_setA _ _ _ hndU

theorem wf_getUser (s : Stats) (nid : Nat) (host : String) (h : wf s) :
    wf (getUser s nid host).2 := by
  cases hn : lookupA s.Networks nid with
  | none => simpa [getUser, hn] using h
  | some n =>
    cases hu : lookupA n.users (lowerStr (ircNick host)) with
    | some uid => simpa [getUser, hn, hu] using h
    | none =>
      have := wf_addUser s nid (ircNick host) h
      simpa [getUser, hn, hu] using this

theorem gu_frame (s : Stats) (nid : Nat) (host : String) :
    (getUser s nid host).2.Channels = s.Channels ∧
    (getUser s nid host).2.ChannelIDCount = s.ChannelIDCount ∧
    (getUser s nid host).2.MessageIDCount = s.MessageIDCount ∧
    (getUser s nid host).2.NetworkIDCount = s.NetworkIDCount ∧
    (getUser s nid host).2.networkByName = s.networkByName ∧
    keysA (getUser s nid host).2.Networks = keysA s.Networks := by
  cases hn : lookupA s.Networks nid with
  | none => simp [getUser, hn]
  | some n =>
    cases hu : lookupA n.users (lowerStr (ircNick host)) with
    | some uid => simp [getUser, hn, hu]
    | none =>
      refine ⟨?_, ?_, ?_, ?_, ?_, ?_⟩ <;> simp [getUser, hn, hu, addUser, keysA_updateA]

theorem gu_networks_isSome (s : Stats) (nid : Nat) (host : String) (x : Nat) :
    (lookupA (getUser s nid host).2.Networks x).isSome = (lookupA s.Networks x).isSome := by
  cases hn : lookupA s.Networks nid with
  | none => simp [getUser, hn]
  | some n =>
    cases hu : lookupA n.users (lowerStr (ircNick host)) with
    | some uid => simp [getUser, hn, hu]
    | none =>
      simp only [getUser, hn, hu, addUser]
      exact isSome_lookupA_updateA _ _ _ _

theorem gu_netMsgIDs (s : Stats) (nid : Nat) (host : String) (x : Nat) :
    netMsgIDs (getUser s nid host).2 x = netMsgIDs s x := by
  cases hn : lookupA s.Networks nid with
  | none => simp [getUser, hn]
  | some n =>
    cases hu : lookupA n.users (lowerStr (ircNick host)) with
    | some uid => simp [getUser, hn, hu]
    | none =>
      simp only [getUser, hn, hu, addUser]
      show ((lookupA (updateA s.Networks nid _) x).map Network.MessageIDs).getD []
        = ((lookupA s.Networks x).map Network.MessageIDs).getD []
      exact getD_map_lookupA_updateA _ _ _ _ _ _ fun b => by simp [networkAddUser]

theorem gu_allCUs (s : Stats) (nid : Nat) (host : String) (h : wf s) :
    allCUs (getUser s nid host).2 = allCUs s := by
  cases hn : lookupA s.Networks nid with
  | none => simp [getUser, hn]
  | some n =>
    cases hu : lookupA n.users (lowerStr (ircNick host)) with
    | some uid => simp [getUser, hn, hu]
    | none =>
      have hfresh : s.UserIDCount ∉ keysA s.Users :=
        notMem_keysA_of_lt_bound _ _ (keysA_lt_of_entries _ _ fun p hp => (h.2.2.1 p hp).2)
      simp only [getUser, hn, hu, addUser]
      show cusOf (setA s.Users s.UserIDCount _) = cusOf s.Users
      exact cusOf_setA_fresh _ _ _ hfresh rfl

/-- The resolved user id dereferences in the resolved state, provided the
network id does. -/
theorem gu_deref (s : Stats) (nid : Nat) (host : String) (h : wf s)
    (hn : (lookupA s.Networks nid).isSome = true) :
    (lookupA (getUser s nid host).2.Users (getUser s nid host).1).isSome = true := by
  cases hn2 : lookupA s.Networks nid with
  | none => rw [hn2] at hn; simp at hn
  | some n =>
    cases hu : lookupA n.users (lowerStr (ircNick host)) with
    | some uid =>
      have hmn := mem_of_lookupA _ _ _ hn2
      have hqu := mem_of_lookupA _ _ _ hu
      have := (h.2.1 _ hmn).2.2.1 _ hqu
      simpa [getUser, hn2, hu] using this
    | none => simp [getUser, hn2, hu, addUser, lookupA_setA]

/-! ### Update-shaped well-formedness preservation -/

theorem wfParts_users_updateA (chs : List (Nat × Channel)) (nets : List (Nat × Network))
    (us : List (Nat × User)) (nbn : List (String × Nat)) (nc cc uc : Nat) (a : Nat)
    (f : User → User) (hf : ∀ u, (f u).ID = u.ID) (h : wfParts chs nets us nbn nc cc uc) :
    wfParts chs nets (updateA us a f) nbn nc cc uc := by
  obtain ⟨hNBN, hNet, hUser, hChan, hndN, hndU, hndC⟩ := h
  refine ⟨hNBN, ?_, ?_, hChan, hndN, ?_, hndC⟩
  · intro p hp
    refine ⟨(hNet p hp).1, (hNet p hp).2.1, ?_⟩
    refine wfNetwork_mono _ _ _ _ _ (fun i hi => ?_) (fun i hi => hi) (hNet p hp).2.2
    rw [isSome_lookupA_updateA]; exact hi
  · intro p hp
    rcases mem_updateA _ _ _ p hp with h2 | ⟨v, hv, hpv⟩
    · exact hUser p h2
    · subst hpv
      exact ⟨(hf v).trans (hUser (a, v) hv).1, (hUser (a, v) hv).2⟩
  · rw [keysA_updateA]; exact hndU

theorem wfParts_channels_updateA (chs : List (Nat × Channel)) (nets : List (Nat × Network))
    (us : List (Nat × User)) (nbn : List (String × Nat)) (nc cc uc : Nat) (a : Nat)
    (f : Channel → Channel) (hf : ∀ c, (f c).ID = c.ID) (h : wfParts chs nets us nbn nc cc uc) :
    wfParts (updateA chs a f) nets us nbn nc cc uc := by
  obtain ⟨hNBN, hNet, hUser, hChan, hndN, hndU, hndC⟩ := h
  refine ⟨hNBN, ?_, hUser, ?_, hndN, hndU, ?_⟩
  · intro p hp
    refine ⟨(hNet p hp).1, (hNet p hp).2.1, ?_⟩
    refine wfNetwork_mono _ _ _ _ _ (fun i hi => hi) (fun i hi => ?_) (hNet p hp).2.2
    rw [isSome_lookupA_updateA]; exact hi
  · intro p hp
    rcases mem_updateA _ _ _ p hp with h2 | ⟨v, hv, hpv⟩
    · exact hChan p h2
    · subst hpv
      exact ⟨(hf v).trans (hChan (a, v) hv).1, (hChan (a, v) hv).2⟩
  · rw [keysA_updateA]; exact hndC

theorem wfParts_networks_updateA (chs : List (Nat × Channel)) (nets : List (Nat × Network))
    (us : List (Nat × User)) (nbn : List (String × Nat)) (nc cc uc : Nat) (a : Nat)
    (f : Network → Network) (hID : ∀ n, (f n).ID = n.ID) (hus : ∀ n, (f n).users = n.users)
    (hch : ∀ n, (f n).channels = n.channels) (h : wfParts chs nets us nbn nc cc uc) :
    wfParts chs (updateA nets a f) us nbn nc cc uc := by
  obtain ⟨hNBN, hNet, hUser, hChan, hndN, hndU, hndC⟩ := h
  refine ⟨?_, ?_, hUser, hChan, ?_, hndU, hndC⟩
  · intro p hp
    refine ⟨(hNBN p hp).1, ?_⟩
    rw [isSome_lookupA_updateA]; exact (hNBN p hp).2
  · intro p hp
    rcases mem_updateA _ _ _ p hp with h2 | ⟨v, hv, hpv⟩
    · exact hNet p h2
    · subst hpv
      refine ⟨(hID v).trans (hNet (a, v) hv).1, (hNet (a, v) hv).2.1, ?_, ?_⟩
      · intro q hq
        exact (hNet (a, v) hv).2.2.1 q (hus v ▸ hq)
      · intro q hq
        exact (hNet (a, v) hv).2.2.2 q (hch v ▸ hq)
  · rw [keysA_updateA]; exact hndN

theorem wf_statsAddMessage (s : Stats) (k : MsgKind) (nid : Nat) (c : Option Nat) (uid : Nat)
    (cu : Option String) (d : Nat) (m : String) (h : wf s) :
    wf (statsAddMessage s k nid c uid cu d m).2 := by
  have hP : wfParts s.Channels s.Networks s.Users s.networkByName
      s.NetworkIDCount s.ChannelIDCount s.UserIDCount := h
  cases c with
  | none =>
    simp only [statsAddMessage, wf]
    exact wfParts_users_updateA _ _ _ _ _ _ _ _ _ (fun u => by simp [userAddMessage])
      (wfParts_networks_updateA _ _ _ _ _ _ _ _ _ (fun n => by simp [networkAddMessage])
        (fun n => by simp [networkAddMessage]) (fun n => by simp [networkAddMessage]) hP)
  | some cid =>
    cases cu with
    | none =>
      cases k <;> simp only [statsAddMessage, wf] <;>
        first
        | exact wfParts_users_updateA _ _ _ _ _ _ _ _ _ (fun u => by simp [userAddMessage])
            (wfParts_networks_updateA _ _ _ _ _ _ _ _ _ (fun n => by simp [networkAddMessage])
              (fun n => by simp [networkAddMessage]) (fun n => by simp [networkAddMessage])
              (wfParts_channels_updateA _ _ _ _ _ _ _ _ _ (fun ch => by simp [channelAddKick])
                (wfParts_channels_updateA _ _ _ _ _ _ _ _ _
                  (fun ch => by simp [channelAddMessage]) hP)))
        | exact wfParts_users_updateA _ _ _ _ _ _ _ _ _ (fun u => by simp [userAddMessage])
            (wfParts_networks_updateA _ _ _ _ _ _ _ _ _ (fun n => by simp [networkAddMessage])
              (fun n => by simp [networkAddMessage]) (fun n => by simp [networkAddMessage])
              (wfParts_channels_updateA _ _ _ _ _ _ _ _ _ (fun ch => by simp [channelAddAction])
                (wfParts_channels_updateA _ _ _ _ _ _ _ _ _
                  (fun ch => by simp [channelAddMessage]) hP)))
        | exact wfParts_users_updateA _ _ _ _ _ _ _ _ _ (fun u => by simp [userAddMessage])
            (wfParts_networks_updateA _ _ _ _ _ _ _ _ _ (fun n => by simp [networkAddMessage])
              (fun n => by simp [networkAddMessage]) (fun n => by simp [networkAddMessage])
              (wfParts_channels_updateA _ _ _ _ _ _ _ _ _
                (fun ch => by simp [channelAddMessage]) hP))
    | some key =>
      cases k <;> simp only [statsAddMessage, wf] <;>
        first
        | exact wfParts_users_updateA _ _ _ _ _ _ _ _ _ (fun u => by simp [userAddMessage])
            (wfParts_networks_updateA _ _ _ _ _ _ _ _ _ (fun n => by simp [networkAddMessage])
              (fun n => by simp [networkAddMessage]) (fun n => by simp [networkAddMessage])
              (wfParts_users_updateA _ _ _ _ _ _ _ _ _ (fun u => rfl)
                (wfParts_channels_updateA _ _ _ _ _ _ _ _ _ (fun ch => by simp [channelAddKick])
                  (wfParts_channels_updateA _ _ _ _ _ _ _ _ _
                    (fun ch => by simp [channelAddMessage]) hP))))
        | exact wfParts_users_updateA _ _ _ _ _ _ _ _ _ (fun u => by simp [userAddMessage])
            (wfParts_networks_updateA _ _ _ _ _ _ _ _ _ (fun n => by simp [networkAddMessage])
              (fun n => by simp [networkAddMessage]) (fun n => by simp [networkAddMessage])
              (wfParts_users_updateA _ _ _ _ _ _ _ _ _ (fun u => rfl)
                (wfParts_channels_updateA _ _ _ _ _ _ _ _ _ (fun ch => by simp [channelAddAction])
                  (wfParts_channels_updateA _ _ _ _ _ _ _ _ _
                    (fun ch => by simp [channelAddMessage]) hP))))
        | exact wfParts_users_updateA _ _ _ _ _ _ _ _ _ (fun u => by simp [userAddMessage])
            (wfParts_networks_updateA _ _ _ _ _ _ _ _ _ (fun n => by simp [networkAddMessage])
              (fun n => by simp [networkAddMessage]) (fun n => by simp [networkAddMessage])
              (wfParts_users_updateA _ _ _ _ _ _ _ _ _ (fun u => rfl)
                (wfParts_channels_updateA _ _ _ _ _ _ _ _ _
                  (fun ch => by simp [channelAddMessage]) hP)))

/-! ### Channel resolution (`getChannel` / `addChannel` / `getChannelUser`) -/

theorem wf_addChannel (s : Stats) (nid : Nat) (name : String) (h : wf s) :
    wf (addChannel s nid name).2 := by
  obtain ⟨hNBN, hNet, hUser, hChan, hndN, hndU, hndC⟩ := h
  have hfresh : s.ChannelIDCount ∉ keysA s.Channels :=
    notMem_keysA_of_lt_bound _ _ (keysA_lt_of_entries _ _ fun p hp => (hChan p hp).2)
  simp only [addChannel]
  refine ⟨?_, ?_, hUser, ?_, ?_, hndU, ?_⟩
  · intro p hp
    refine ⟨(hNBN p hp).1, ?_⟩
    rw [isSome_lookupA_updateA]
    exact (hNBN p hp).2
  · intro p hp
    rcases mem_updateA _ _ _ p hp with h2 | ⟨v, hv, hpv⟩
    · refine ⟨(hNet p h2).1, (hNet p h2).2.1, ?_⟩
      exact wfNetwork_mono _ _ _ _ _ (fun i hi => hi)
        (fun i hi => isSome_lookupA_setA _ _ _ _ hi) (hNet p h2).2.2
    · subst hpv
      have hvid : v.ID = nid := (hNet (nid, v) hv).1
      refine ⟨by simp [networkAddChannel, hvid], (hNet (nid, v) hv).2.1, ?_, ?_⟩
      · intro q hq
        have hq2 : q ∈ v.users := by simpa [networkAddChannel] using hq
        exact (hNet (nid, v) hv).2.2.1 q hq2
      · intro q hq
        have hq2 : q ∈ setA v.channels (lowerStr (newChannel s.ChannelIDCount nid name).Name)
            s.ChannelIDCount := by
          simpa [networkAddChannel] using hq
        rcases mem_setA_cases _ _ _ q hq2 with h3 | h4
        · subst h3
          simp [lookupA_setA]
        · exact isSome_lookupA_setA _ _ _ _ ((hNet (nid, v) hv).2.2.2 q h4)
  · intro p hp
    rcases mem_setA_cases _ _ _ p hp with h1 | h2
    · subst h1
      exact ⟨rfl, Nat.lt_succ_self _⟩
    · exact ⟨(hChan p h2).1, Nat.lt_succ_of_lt (hChan p h2).2⟩
  · rw [keysA_updateA]; exact hndN
  · exact nodup_keysA_setA _ _ _ hndC

theorem wf_getChannel (s : Stats) (nid : Nat) (name : String) (h : wf s) :
    wf (getChannel s nid name).2 := by
  cases hn : lookupA s.Networks nid with
  | none => simpa [getChannel, hn] using h
  | some n =>
    cases hc : lookupA n.channels (lowerStr name) with
    | some cid => simpa [getChannel, hn, hc] using h
    | none =>
      have := wf_addChannel s nid name h
      simpa [getChannel, hn, hc] using this

theorem wf_getChannelUser (s : Stats) (uid : Nat) (channel : String) (h : wf s) :
    wf (getChannelUser s uid channel).2 := by
  cases hu : lookupA s.Users uid with
  | none => simpa [getChannelUser, hu] using h
  | some u =>
    cases hcu : lookupA u.ChannelUsers (lowerStr channel) with
    | some v => simpa [getChannelUser, hu, hcu] using h
    | none =>
      simp only [getChannelUser, hu, hcu, wf]
      exact wfParts_users_updateA _ _ _ _ _ _ _ _ _ (fun v => rfl) h

theorem gc_frame (s : Stats) (nid : Nat) (name : String) :
    (getChannel s nid name).2.networkByName = s.networkByName ∧
    (getChannel s nid name).2.NetworkIDCount = s.NetworkIDCount ∧
    (getChannel s nid name).2.MessageIDCount = s.MessageIDCount ∧
    keysA (getChannel s nid name).2.Networks = keysA s.Networks ∧
    (getChannel s nid name).2.Users = s.Users ∧
    (getChannel s nid name).2.UserIDCount = s.UserIDCount := by
  cases hn : lookupA s.Networks nid with
  | none => simp [getChannel, hn]
  | some n =>
    cases hc : lookupA n.channels (lowerStr name) with
    | some cid => simp [getChannel, hn, hc]
    | none =>
      refine ⟨?_, ?_, ?_, ?_, ?_, ?_⟩ <;> simp [getChannel, hn, hc, addChannel, keysA_updateA]

theorem gcu_frame (s : Stats) (uid : Nat) (channel : String) :
    (getChannelUser s uid channel).2.networkByName = s.networkByName ∧
    (getChannelUser s uid channel).2.NetworkIDCount = s.NetworkIDCount ∧
    (getChannelUser s uid channel).2.MessageIDCount = s.MessageIDCount ∧
    keysA (getChannelUser s uid channel).2.Networks = keysA s.Networks ∧
    (getChannelUser s uid channel).2.Channels = s.Channels ∧
    (getChannelUser s uid channel).2.ChannelIDCount = s.ChannelIDCount := by
  cases hu : lookupA s.Users uid with
  | none => simp [getChannelUser, hu]
  | some u =>
    cases hcu : lookupA u.ChannelUsers (lowerStr channel) with
    | some v => simp [getChannelUser, hu, hcu]
    | none => refine ⟨?_, ?_, ?_, ?_, ?_, ?_⟩ <;> simp [getChannelUser, hu, hcu]

theorem sam_frame (s : Stats) (k : MsgKind) (nid : Nat) (c : Option Nat) (uid : Nat)
    (cu : Option String) (d : Nat) (m : String) :
    (statsAddMessage s k nid c uid cu d m).2.networkByName = s.networkByName ∧
    (statsAddMessage s k nid c uid cu d m).2.NetworkIDCount = s.NetworkIDCount ∧
    keysA (statsAddMessage s k nid c uid cu d m).2.Networks = keysA s.Networks ∧
    (statsAddMessage s k nid c uid cu d m).1.ID = s.MessageIDCount ∧
    (statsAddMessage s k nid c uid cu d m).2.MessageIDCount = s.MessageIDCount + 1 ∧
    keysA (statsAddMessage s k nid c uid cu d m).2.Users = keysA s.Users ∧
    keysA (statsAddMessage s k nid c uid cu d m).2.Channels = keysA s.Channels := by
  cases c with
  | none => refine ⟨?_, ?_, ?_, ?_, ?_, ?_, ?_⟩ <;> simp [statsAddMessage, keysA_updateA]
  | some cid =>
    cases cu with
    | none =>
      cases k <;> (refine ⟨?_, ?_, ?_, ?_, ?_, ?_, ?_⟩ <;> simp [statsAddMessage, keysA_updateA])
    | some key =>
      cases k <;> (refine ⟨?_, ?_, ?_, ?_, ?_, ?_, ?_⟩ <;> simp [statsAddMessage, keysA_updateA])

/-! ### `AddMessage` composition -/

theorem wf_AddMessage (s : Stats) (k : MsgKind) (net ch host : String) (d : Nat) (t : String)
    (h : wf s) : wf (AddMessage s k net ch host d t).2 := by
  by_cases hch : ch = ""
  · subst hch
    simp only [AddMessage, ne_eq, not_true_eq_false, if_neg, ite_false, reduceIte]
    exact wf_statsAddMessage _ _ _ _ _ _ _ _
      (wf_getUser _ _ _ (wf_getNetwork _ _ h))
  · simp only [AddMessage, ne_eq, hch, not_false_eq_true, ite_true, if_pos]
    exact wf_statsAddMessage _ _ _ _ _ _ _ _
      (wf_getChannelUser _ _ _ (wf_getChannel _ _ _
        (wf_getUser _ _ _ (wf_getNetwork _ _ h))))

theorem wf_stepMsg (s : Stats) (m : MsgSpec) (h : wf s) : wf (stepMsg s m) :=
  wf_AddMessage _ _ _ _ _ _ _ h

theorem wf_freshStats : wf freshStats := by decide

theorem wf_runMsgs (ms : List MsgSpec) : wf (runMsgs ms) := by
  rw [runMsgs]
  have h0 : wf freshStats := wf_freshStats
  generalize freshStats = s at h0 ⊢
  induction ms generalizing s with
  | nil => exact h0
  | cons m ms ih => exact ih _ (wf_stepMsg s m h0)

/-- The name index after a whole `AddMessage` call is the one the network
resolution step produced: nothing downstream touches it. -/
theorem am_nbn (s : Stats) (k : MsgKind) (net ch host : String) (d : Nat) (t : String) :
    (AddMessage s k net ch host d t).2.networkByName = (getNetwork s net).2.networkByName := by
  by_cases hch : ch = ""
  · subst hch
    simp only [AddMessage, ne_eq, not_true_eq_false, reduceIte]
    rw [(sam_frame _ _ _ _ _ _ _ _).1, (gu_frame _ _ _).2.2.2.2.1]
  · simp only [AddMessage, ne_eq, hch, not_false_eq_true, reduceIte]
    rw [(sam_frame _ _ _ _ _ _ _ _).1, (gcu_frame _ _ _).1, (gc_frame _ _ _).1,
      (gu_frame _ _ _).2.2.2.2.1]

theorem am_netIDCount (s : Stats) (k : MsgKind) (net ch host : String) (d : Nat) (t : String) :
    (AddMessage s k net ch host d t).2.NetworkIDCount = (getNetwork s net).2.NetworkIDCount := by
  by_cases hch : ch = ""
  · subst hch
    simp only [AddMessage, ne_eq, not_true_eq_false, reduceIte]
    rw [(sam_frame _ _ _ _ _ _ _ _).2.1, (gu_frame _ _ _).2.2.2.1]
  · simp only [AddMessage, ne_eq, hch, not_false_eq_true, reduceIte]
    rw [(sam_frame _ _ _ _ _ _ _ _).2.1, (gcu_frame _ _ _).2.1, (gc_frame _ _ _).2.1,
      (gu_frame _ _ _).2.2.2.1]

theorem am_keysNetworks (s : Stats) (k : MsgKind) (net ch host : String) (d : Nat) (t : String) :
    keysA (AddMessage s k net ch host d t).2.Networks = keysA (getNetwork s net).2.Networks := by
  by_cases hch : ch = ""
  · subst hch
    simp only [AddMessage, ne_eq, not_true_eq_false, reduceIte]
    rw [(sam_frame _ _ _ _ _ _ _ _).2.2.1, (gu_frame _ _ _).2.2.2.2.2]
  · simp only [AddMessage, ne_eq, hch, not_false_eq_true, reduceIte]
    rw [(sam_frame _ _ _ _ _ _ _ _).2.2.1, (gcu_frame _ _ _).2.2.2.1, (gc_frame _ _ _).2.2.2.1,
      (gu_frame _ _ _).2.2.2.2.2]

/-! ### Key persistence along message processing -/

theorem keysMono_refl (s : Stats) : keysMono s s :=
  ⟨fun _ hx => hx, fun _ hx => hx, fun _ hx => hx⟩

theorem keysMono_trans {a b c : Stats} (h1 : keysMono a b) (h2 : keysMono b c) : keysMono a c :=
  ⟨fun x hx => h2.1 (h1.1 hx), fun x hx => h2.2.1 (h1.2.1 hx), fun x hx => h2.2.2 (h1.2.2 hx)⟩

theorem keysMono_getNetwork (s : Stats) (a : String) : keysMono s (getNetwork s a).2 := by
  cases hl : lookupA s.networkByName (lowerStr a) with
  | some nid =>
    simp only [getNetwork, hl]
    exact keysMono_refl s
  | none =>
    simp only [getNetwork, hl, addNetwork]
    exact ⟨fun x hx => mem_keysA_setA_of_mem _ _ _ _ hx, fun x hx => hx, fun x hx => hx⟩

theorem keysMono_getUser (s : Stats) (nid : Nat) (host : String) :
    keysMono s (getUser s nid host).2 := by
  cases hn : lookupA s.Networks nid with
  | none =>
    simp only [getUser, hn]
    exact keysMono_refl s
  | some n =>
    cases hu : lookupA n.users (lowerStr (ircNick host)) with
    | some uid =>
      simp only [getUser, hn, hu]
      exact keysMono_refl s
    | none =>
      simp only [getUser, hn, hu, addUser]
      refine ⟨fun x hx => ?_, fun x hx => mem_keysA_setA_of_mem _ _ _ _ hx, fun x hx => hx⟩
      rw [show keysA (updateA s.Networks nid fun n =>
          networkAddUser n (NewUser s.UserIDCount nid (ircNick host))) = keysA s.Networks
        from keysA_updateA _ _ _]
      exact hx

theorem keysMono_getChannel (s : Stats) (nid : Nat) (name : String) :
    keysMono s (getChannel s nid name).2 := by
  cases hn : lookupA s.Networks nid with
  | none =>
    simp only [getChannel, hn]
    exact keysMono_refl s
  | some n =>
    cases hc : lookupA n.channels (lowerStr name) with
    | some cid =>
      simp only [getChannel, hn, hc]
      exact keysMono_refl s
    | none =>
      simp only [getChannel, hn, hc, addChannel]
      refine ⟨fun x hx => ?_, fun x hx => hx, fun x hx => mem_keysA_setA_of_mem _ _ _ _ hx⟩
      rw [show keysA (updateA s.Networks nid fun n =>
          networkAddChannel n (newChannel s.ChannelIDCount nid name)) = keysA s.Networks
        from keysA_updateA _ _ _]
      exact hx

theorem keysMono_getChannelUser (s : Stats) (uid : Nat) (channel : String) :
    keysMono s (getChannelUser s uid channel).2 := by
  cases hu : lookupA s.Users uid with
  | none =>
    simp only [getChannelUser, hu]
    exact keysMono_refl s
  | some u =>
    cases hcu : lookupA u.ChannelUsers (lowerStr channel) with
    | some v =>
      simp only [getChannelUser, hu, hcu]
      exact keysMono_refl s
    | none =>
      simp only [getChannelUser, hu, hcu]
      refine ⟨fun x hx => hx, fun x hx => ?_, fun x hx => hx⟩
      rw [show keysA (updateA s.Users uid fun v =>
          userAddChannelUser v (lowerStr channel)) = keysA s.Users from keysA_updateA _ _ _]
      exact hx

theorem keysMono_statsAddMessage (s : Stats) (k : MsgKind) (nid : Nat) (c : Option Nat)
    (uid : Nat) (cu : Option String) (d : Nat) (m : String) :
    keysMono s (statsAddMessage s k nid c uid cu d m).2 := by
  have hf := sam_frame s k nid c uid cu d m
  exact ⟨fun x hx => hf.2.2.1 ▸ hx, fun x hx => hf.2.2.2.2.2.1 ▸ hx,
    fun x hx => hf.2.2.2.2.2.2 ▸ hx⟩

theorem keysMono_AddMessage (s : Stats) (k : MsgKind) (net ch host : String) (d : Nat)
    (t : String) : keysMono s (AddMessage s k net ch host d t).2 := by
  by_cases hch : ch = ""
  · subst hch
    simp only [AddMessage, ne_eq, not_true_eq_false, reduceIte]
    exact keysMono_trans (keysMono_trans (keysMono_getNetwork s net)
      (keysMono_getUser _ _ _)) (keysMono_statsAddMessage _ _ _ _ _ _ _ _)
  · simp only [AddMessage, ne_eq, hch, not_false_eq_true, reduceIte]
    exact keysMono_trans (keysMono_trans (keysMono_trans (keysMono_trans
      (keysMono_getNetwork s net) (keysMono_getUser _ _ _)) (keysMono_getChannel _ _ _))
      (keysMono_getChannelUser _ _ _)) (keysMono_statsAddMessage _ _ _ _ _ _ _ _)

theorem keysMono_foldl (ext : List MsgSpec) (s : Stats) :
    keysMono s (ext.foldl stepMsg s) := by
  induction ext generalizing s with
  | nil => exact keysMono_refl s
  | cons m ms ih =>
    exact keysMono_trans (keysMono_AddMessage s m.kind m.net m.channel m.hostmask m.date m.text)
      (ih (stepMsg s m))

theorem keysMono_runMsgs (ms ext : List MsgSpec) :
    keysMono (runMsgs ms) (runMsgs (ms ++ ext)) := by
  rw [runMsgs, runMsgs, List.foldl_append]
  exact keysMono_foldl ext _

/-! ### Id discipline from well-formedness -/

theorem idsOKb_of_wf (s : Stats) (h : wf s) : idsOKb s = true := by
  obtain ⟨hNBN, hNet, hUser, hChan, hndN, hndU, hndC⟩ := h
  simp only [idsOKb, Bool.and_eq_true, List.all_eq_true, decide_eq_true_eq]
  exact ⟨⟨⟨⟨⟨fun p hp => (hNet p hp).1, fun p hp => (hUser p hp).1⟩,
    fun p hp => (hChan p hp).1⟩, hndN⟩, hndU⟩, hndC⟩

theorem subB_of_subset (l1 l2 : List Nat) (h : l1 ⊆ l2) : subB l1 l2 = true := by
  simp only [subB, List.all_eq_true]
  intro x hx
  simp only [List.contains]
  exact List.elem_iff.mpr (h hx)

/-! ### Claim C9 -/

/-- C9: along any AddMessage history, entity ids are unique within their
kind --- the table keys are pairwise distinct and every stored entity carries
its key as its id field --- and they are never reassigned: every id present
after `ms` is still present (with the same id field, by the key discipline)
after any continuation `ext`, and each call stamps the fresh value of the
message id counter on its `Message` and advances the counter by exactly
one, so message ids are distinct as well. -/
theorem C9_ids_unique_stable (ms ext : List MsgSpec) (k : MsgKind) (net ch host : String)
    (d : Nat) (t : String) :
    idsOKb (runMsgs ms) = true ∧
    idsOKb (runMsgs (ms ++ ext)) = true ∧
    subB (keysA (runMsgs ms).Networks) (keysA (runMsgs (ms ++ ext)).Networks) = true ∧
    subB (keysA (runMsgs ms).Users) (keysA (runMsgs (ms ++ ext)).Users) = true ∧
    subB (keysA (runMsgs ms).Channels) (keysA (runMsgs (ms ++ ext)).Channels) = true ∧
    (AddMessage (runMsgs ms) k net ch host d t).1.ID = (runMsgs ms).MessageIDCount ∧
    (AddMessage (runMsgs ms) k net ch host d t).2.MessageIDCount
      = (runMsgs ms).MessageIDCount + 1 := by
  have hmono := keysMono_runMsgs ms ext
  refine ⟨idsOKb_of_wf _ (wf_runMsgs ms), idsOKb_of_wf _ (wf_runMsgs (ms ++ ext)),
    subB_of_subset _ _ hmono.1, subB_of_subset _ _ hmono.2.1, subB_of_subset _ _ hmono.2.2,
    ?_, ?_⟩
  · by_cases hch : ch = ""
    · subst hch
      simp only [AddMessage, ne_eq, not_true_eq_false, reduceIte]
      rw [(sam_frame _ _ _ _ _ _ _ _).2.2.2.1, (gu_frame _ _ _).2.2.1,
        (gn_frame _ _).2.2.2.2]
    · simp only [AddMessage, ne_eq, hch, not_false_eq_true, reduceIte]
      rw [(sam_frame _ _ _ _ _ _ _ _).2.2.2.1, (gcu_frame _ _ _).2.2.1, (gc_frame _ _ _).2.2.1,
        (gu_frame _ _ _).2.2.1, (gn_frame _ _).2.2.2.2]
  · by_cases hch : ch = ""
    · subst hch
      simp only [AddMessage, ne_eq, not_true_eq_false, reduceIte]
      rw [(sam_frame _ _ _ _ _ _ _ _).2.2.2.2.1, (gu_frame _ _ _).2.2.1,
        (gn_frame _ _).2.2.2.2]
    · simp only [AddMessage, ne_eq, hch, not_false_eq_true, reduceIte]
      rw [(sam_frame _ _ _ _ _ _ _ _).2.2.2.2.1, (gcu_frame _ _ _).2.2.1, (gc_frame _ _ _).2.2.1,
        (gu_frame _ _ _).2.2.1, (gn_frame _ _).2.2.2.2]

/-! ### Claim C5 -/

/-- C5: resolving the same network name twice with different letter casing
yields the same network id and the very same state (no new `Network`, no
counter advance) --- both at the `getNetwork`/`addNetwork` level the claim
cites, and through a full second `AddMessage` call, which leaves the network
id counter and the network table keys untouched and resolves to the id the
first call produced. -/
theorem C5_network_case_insensitive (s : Stats) (a b : String) (h : lowerStr a = lowerStr b)
    (k k2 : MsgKind) (ch ch2 host host2 : String) (d d2 : Nat) (t t2 : String) :
    (getNetwork ((getNetwork s a).2) b).1 = (getNetwork s a).1 ∧
    (getNetwork ((getNetwork s a).2) b).2 = (getNetwork s a).2 ∧
    (getNetwork (AddMessage s k a ch host d t).2 b).1 = (getNetwork s a).1 ∧
    (AddMessage (AddMessage s k a ch host d t).2 k2 b ch2 host2 d2 t2).2.NetworkIDCount
      = (AddMessage s k a ch host d t).2.NetworkIDCount ∧
    keysA (AddMessage (AddMessage s k a ch host d t).2 k2 b ch2 host2 d2 t2).2.Networks
      = keysA (AddMessage s k a ch host d t).2.Networks := by
  have hb : lowerStr b = lowerStr a := h.symm
  obtain ⟨nid, s1, hp⟩ : ∃ n t1, getNetwork s a = (n, t1) := ⟨_, _, rfl⟩
  have hres : lookupA s1.networkByName (lowerStr a) = some nid := by
    have h0 := gn_resolves s a
    rw [hp] at h0
    exact h0
  have h1 : getNetwork s1 b = (nid, s1) := by
    simp [getNetwork, hb, hres]
  have hres2 : lookupA (AddMessage s k a ch host d t).2.networkByName (lowerStr b)
      = some nid := by
    rw [hb, am_nbn, hp]
    exact hres
  have h2 : getNetwork (AddMessage s k a ch host d t).2 b
      = (nid, (AddMessage s k a ch host d t).2) := by
    simp [getNetwork, hres2]
  rw [hp]
  refine ⟨by rw [h1], by rw [h1], by rw [h2], ?_, ?_⟩
  · rw [am_netIDCount, h2]
  · rw [am_keysNetworks, h2]

/-- C5 witness: the "Freenode" / "freenode" pair of the claim, starting from
the fresh state. -/
theorem C5_witness :
    lowerStr "Freenode" = lowerStr "freenode" ∧
    ((getNetwork ((getNetwork freshStats "Freenode").2) "freenode").1
        = (getNetwork freshStats "Freenode").1 ∧
      (getNetwork ((getNetwork freshStats "Freenode").2) "freenode").2
        = (getNetwork freshStats "Freenode").2 ∧
      (getNetwork (AddMessage freshStats MsgKind.Privmsg "Freenode" "" "al!a@b" 0 "hi").2
          "freenode").1 = (getNetwork freshStats "Freenode").1 ∧
      (AddMessage (AddMessage freshStats MsgKind.Privmsg "Freenode" "" "al!a@b" 0 "hi").2
          MsgKind.Privmsg "freenode" "#Chan" "Bob!x@y" 7 "m3 !!").2.NetworkIDCount
        = (AddMessage freshStats MsgKind.Privmsg "Freenode" "" "al!a@b" 0 "hi").2.NetworkIDCount ∧
      keysA (AddMessage (AddMessage freshStats MsgKind.Privmsg "Freenode" "" "al!a@b" 0 "hi").2
          MsgKind.Privmsg "freenode" "#Chan" "Bob!x@y" 7 "m3 !!").2.Networks
        = keysA (AddMessage freshStats MsgKind.Privmsg "Freenode" "" "al!a@b" 0 "hi").2.Networks) :=
  ⟨by decide, C5_network_case_insensitive freshStats "Freenode" "freenode" (by decide)
    MsgKind.Privmsg MsgKind.Privmsg "" "#Chan" "al!a@b" "Bob!x@y" 0 7 "hi" "m3 !!"⟩

/-! ### Claim C10 -/

/-- C10: `GetNetwork` is an exact, case-sensitive lookup against an index
keyed by lowercased names.  On any state built only by `AddMessage` calls,
every query that is not already lowercase misses (in particular
`GetNetwork "Freenode"` is `nil` even after "Freenode" was created), while
the lowercased name of any just-added network hits. -/
theorem C10_getnetwork_exact_lookup (ms : List MsgSpec) (m : MsgSpec) (q : String)
    (hq : lowerStr q ≠ q) :
    GetNetwork (runMsgs ms) q = none ∧
    (GetNetwork (runMsgs (ms ++ [m])) (lowerStr m.net)).isSome = true := by
  constructor
  · cases ho : lookupA (runMsgs ms).networkByName q with
    | none => exact ho
    | some v =>
      have hm := mem_of_lookupA _ _ _ ho
      exact absurd ((wf_runMsgs ms).1 _ hm).1 hq
  · have hstep : runMsgs (ms ++ [m]) = stepMsg (runMsgs ms) m := by
      rw [runMsgs, runMsgs, List.foldl_append]
      rfl
    rw [hstep]
    show (lookupA (AddMessage (runMsgs ms) m.kind m.net m.channel m.hostmask m.date
      m.text).2.networkByName (lowerStr m.net)).isSome = true
    rw [am_nbn, gn_resolves]
    rfl

/-- C10 witness: after ingesting one message on network "Freenode", the
mixed-case query misses and the lowercase query hits. -/
theorem C10_witness :
    lowerStr "Freenode" ≠ "Freenode" ∧
    (GetNetwork (runMsgs [specFreenode]) "Freenode" = none ∧
      (GetNetwork (runMsgs ([specFreenode] ++ [specChan])) (lowerStr specChan.net)).isSome
        = true) :=
  ⟨by decide, C10_getnetwork_exact_lookup [specFreenode] specChan "Freenode" (by decide)⟩

/-! ### Claim C6 -/

/-- C6: an `AddMessage` with an empty channel name updates the network and
user aggregates --- the resolved network's and user's message lists get the
new message id appended and the user's line counter advances --- while the
channel table, the channel id counter, and every ChannelUser are untouched,
and the produced `Message` has `ChannelID = 0`. -/
theorem C6_empty_channel_frame (s : Stats) (hwf : wf s) (k : MsgKind) (net host : String)
    (d : Nat) (txt : String) :
    (AddMessage s k net "" host d txt).2.Channels = s.Channels ∧
    (AddMessage s k net "" host d txt).2.ChannelIDCount = s.ChannelIDCount ∧
    allCUs (AddMessage s k net "" host d txt).2 = allCUs s ∧
    (AddMessage s k net "" host d txt).1.ChannelID = 0 ∧
    (AddMessage s k net "" host d txt).1.ID = s.MessageIDCount ∧
    netMsgIDs (AddMessage s k net "" host d txt).2 (getNetwork s net).1
      = netMsgIDs (getUser (getNetwork s net).2 (getNetwork s net).1 host).2
          (getNetwork s net).1 ++ [s.MessageIDCount] ∧
    userMsgIDs (AddMessage s k net "" host d txt).2
        (getUser (getNetwork s net).2 (getNetwork s net).1 host).1
      = userMsgIDs (getUser (getNetwork s net).2 (getNetwork s net).1 host).2
          (getUser (getNetwork s net).2 (getNetwork s net).1 host).1 ++ [s.MessageIDCount] ∧
    userLines (AddMessage s k net "" host d txt).2
        (getUser (getNetwork s net).2 (getNetwork s net).1 host).1
      = userLines (getUser (getNetwork s net).2 (getNetwork s net).1 host).2
          (getUser (getNetwork s net).2 (getNetwork s net).1 host).1 + 1 := by
  have hwf1 : wf (getNetwork s net).2 := wf_getNetwork s net hwf
  have hder1 : (lookupA (getNetwork s net).2.Networks (getNetwork s net).1).isSome = true :=
    gn_deref s net hwf
  have hderN2 : (lookupA (getUser (getNetwork s net).2 (getNetwork s net).1 host).2.Networks
      (getNetwork s net).1).isSome = true := by
    rw [gu_networks_isSome]
    exact hder1
  have hderU2 : (lookupA (getUser (getNetwork s net).2 (getNetwork s net).1 host).2.Users
      (getUser (getNetwork s net).2 (getNetwork s net).1 host).1).isSome = true :=
    gu_deref (getNetwork s net).2 (getNetwork s net).1 host hwf1 hder1
  have hmc : (getUser (getNetwork s net).2 (getNetwork s net).1 host).2.MessageIDCount
      = s.MessageIDCount :=
    ((gu_frame _ _ _).2.2.1).trans ((gn_frame s net).2.2.2.2)
  have hAM : AddMessage s k net "" host d txt
      = statsAddMessage (getUser (getNetwork s net).2 (getNetwork s net).1 host).2 k
          (getNetwork s net).1 none
          (getUser (getNetwork s net).2 (getNetwork s net).1 host).1 none d txt := by
    simp only [AddMessage, ne_eq, not_true_eq_false, reduceIte]
  rw [hAM]
  obtain ⟨n2, hn2⟩ := Option.isSome_iff_exists.mp hderN2
  obtain ⟨u2, hu2⟩ := Option.isSome_iff_exists.mp hderU2
  refine ⟨?_, ?_, ?_, ?_, ?_, ?_, ?_, ?_⟩
  · simp only [statsAddMessage]
    rw [(gu_frame _ _ _).1, (gn_frame s net).1]
  · simp only [statsAddMessage]
    rw [(gu_frame _ _ _).2.1, (gn_frame s net).2.2.1]
  · simp only [statsAddMessage]
    rw [allCUs_eq]
    simp only []
    rw [cusOf_updateA _ _ _ fun u => by simp [userAddMessage]]
    rw [show cusOf (getUser (getNetwork s net).2 (getNetwork s net).1 host).2.Users
        = allCUs (getUser (getNetwork s net).2 (getNetwork s net).1 host).2 from rfl]
    rw [gu_allCUs _ _ _ hwf1, allCUs_eq, (gn_frame s net).2.1, ← allCUs_eq]
  · simp only [statsAddMessage]
  · simp only [statsAddMessage]
    exact hmc
  · simp only [statsAddMessage, netMsgIDs]
    rw [lookupA_updateA, if_pos rfl, hn2]
    simp [networkAddMessage, hmc]
  · simp only [statsAddMessage, userMsgIDs]
    rw [lookupA_updateA, if_pos rfl, hu2]
    simp [userAddMessage, hmc]
  · simp only [statsAddMessage, userLines]
    rw [lookupA_updateA, if_pos rfl, hu2]
    simp [userAddMessage, bundleAdd, btcAddMessage]

/-- C6 witness: the frame conditions checked at the fresh state for a
concrete channel-less message. -/
theorem C6_witness :
    wf freshStats ∧
    ((AddMessage freshStats MsgKind.Privmsg "Freenode" "" "al!a@b" 0 "hi").2.Channels
        = freshStats.Channels ∧
      (AddMessage freshStats MsgKind.Privmsg "Freenode" "" "al!a@b" 0 "hi").2.ChannelIDCount
        = freshStats.ChannelIDCount ∧
      allCUs (AddMessage freshStats MsgKind.Privmsg "Freenode" "" "al!a@b" 0 "hi").2
        = allCUs freshStats ∧
      (AddMessage freshStats MsgKind.Privmsg "Freenode" "" "al!a@b" 0 "hi").1.ChannelID = 0 ∧
      (AddMessage freshStats MsgKind.Privmsg "Freenode" "" "al!a@b" 0 "hi").1.ID
        = freshStats.MessageIDCount ∧
      netMsgIDs (AddMessage freshStats MsgKind.Privmsg "Freenode" "" "al!a@b" 0 "hi").2
          (getNetwork freshStats "Freenode").1
        = netMsgIDs (getUser (getNetwork freshStats "Freenode").2
            (getNetwork freshStats "Freenode").1 "al!a@b").2
            (getNetwork freshStats "Freenode").1 ++ [freshStats.MessageIDCount] ∧
      userMsgIDs (AddMessage freshStats MsgKind.Privmsg "Freenode" "" "al!a@b" 0 "hi").2
          (getUser (getNetwork freshStats "Freenode").2
            (getNetwork freshStats "Freenode").1 "al!a@b").1
        = userMsgIDs (getUser (getNetwork freshStats "Freenode").2
              (getNetwork freshStats "Freenode").1 "al!a@b").2
            (getUser (getNetwork freshStats "Freenode").2
              (getNetwork freshStats "Freenode").1 "al!a@b").1 ++ [freshStats.MessageIDCount] ∧
      userLines (AddMessage freshStats MsgKind.Privmsg "Freenode" "" "al!a@b" 0 "hi").2
          (getUser (getNetwork freshStats "Freenode").2
            (getNetwork freshStats "Freenode").1 "al!a@b").1
        = userLines (getUser (getNetwork freshStats "Freenode").2
              (getNetwork freshStats "Freenode").1 "al!a@b").2
            (getUser (getNetwork freshStats "Freenode").2
              (getNetwork freshStats "Freenode").1 "al!a@b").1 + 1) :=
  ⟨by decide, C6_empty_channel_frame freshStats (by decide) MsgKind.Privmsg "Freenode"
    "al!a@b" 0 "hi"⟩

end IrcStats
